import Mathlib

/-!
Verification of the Open-Meteo parsing / data-cleaning core
(`src/openmeteo_parser.py`, `src/data_cleaner.py`) against its
natural-language specification.

The Python data is shallowly embedded:
* a Python scalar value is a `Val` (None, int, finite float as a rational,
  the float NaN sentinel, signed infinity, or a string);
* a Python `dict` row is an insertion-ordered association list `Row`;
* a pandas `DataFrame` is a `Table`: an ordered column list plus one `Row`
  per data row (every conforming row carries exactly the listed columns);
* fallible operations return `Except String` / `Option`.

Finite floats are modelled as rationals: the code under verification never
performs float arithmetic, only conversion, NaN tests (`x != x`) and
equality, so IEEE rounding is irrelevant here.
-/

inductive Val where
  | null                -- Python None
  | int (n : Int)       -- Python int
  | float (q : ℚ)       -- finite Python float
  | nan                 -- float('nan'), the numeric-missing sentinel
  | inf (neg : Bool)    -- float('inf') / float('-inf')
  | str (s : String)
deriving DecidableEq

/-- A Python dict with string keys, as an insertion-ordered association list. -/
abbrev Row := List (String × Val)

/-- Lookup of a key (first occurrence), i.e. `r[k]` / `k in r`. -/
def dget (r : Row) (k : String) : Option Val :=
  match r with
  | [] => Option.none
  | (k', v) :: rest => if k' = k then some v else dget rest k

/-- `r[k] = v`: overwrite in place if the key exists, else append (dict order). -/
def dset (r : Row) (k : String) (v : Val) : Row :=
  match r with
  | [] => [(k, v)]
  | (k', w) :: rest => if k' = k then (k', v) :: rest else (k', w) :: dset rest k v

/-- `list(r.keys())`. -/
def dkeys (r : Row) : List String := r.map Prod.fst

/-- `r.get(k)`: lookup returning None when the key is absent. -/
def pyGet (r : Row) (k : String) : Val := (dget r k).getD Val.null

/-- One cell of a DataFrame row. A conforming table row always carries the
column, so the NaN default is never exercised on real frames. -/
def tblGet (r : Row) (c : String) : Val := (dget r c).getD Val.nan

/-- A pandas DataFrame: ordered column names plus row-major data. -/
structure Table where
  cols : List String
  rows : List Row
deriving DecidableEq

/-! ### The Python `float()` builtin

`float(v)` for the value kinds above. `Option.none` models a raised
`TypeError`/`ValueError`. String parsing follows the documented grammar:
optional surrounding whitespace, optional sign, then `inf`, `infinity`,
`nan` (case-insensitive) or a decimal literal with optional fraction and
exponent, with single underscores allowed between digits. -/

def isPyWs (c : Char) : Bool :=
  c = ' ' ∨ c = '\t' ∨ c = '\n' ∨ c = '\r' ∨ c = Char.ofNat 11 ∨ c = Char.ofNat 12

/-- Parse a full Python `digitpart` (digits with single interior underscores). -/
def digitPartVal : List Char → Option Nat
  | [] => Option.none
  | c :: rest => if c.isDigit then go (c.toNat - 48) rest else Option.none
where
  go (acc : Nat) : List Char → Option Nat
    | [] => some acc
    | '_' :: d :: rest =>
        if d.isDigit then go (acc * 10 + (d.toNat - 48)) rest else Option.none
    | '_' :: [] => Option.none
    | d :: rest => if d.isDigit then go (acc * 10 + (d.toNat - 48)) rest else Option.none

/-- Parse a `digitpart` also returning how many digits it holds
(needed to scale a fraction part). -/
def fracPartVal : List Char → Option (Nat × Nat)
  | [] => Option.none
  | c :: rest => if c.isDigit then go (c.toNat - 48) 1 rest else Option.none
where
  go (acc ndig : Nat) : List Char → Option (Nat × Nat)
    | [] => some (acc, ndig)
    | '_' :: d :: rest =>
        if d.isDigit then go (acc * 10 + (d.toNat - 48)) (ndig + 1) rest else Option.none
    | '_' :: [] => Option.none
    | d :: rest =>
        if d.isDigit then go (acc * 10 + (d.toNat - 48)) (ndig + 1) rest else Option.none

/-- Split a character list at the first occurrence of `c` (if any). -/
def splitOnChar (c : Char) : List Char → Option (List Char × List Char)
  | [] => Option.none
  | d :: rest =>
      if d = c then some ([], rest)
      else (splitOnChar c rest).map (fun p => (d :: p.1, p.2))

/-- Value of a Python float mantissa `digitpart? ("." fracpart?)?`. -/
def mantissaVal (cs : List Char) : Option ℚ :=
  match splitOnChar '.' cs with
  | Option.none => (digitPartVal cs).map (fun n => (n : ℚ))
  | some (l, r) =>
      if (splitOnChar '.' r).isSome then Option.none
      else
        match l, r with
        | [], [] => Option.none
        | [], _ => (fracPartVal r).map (fun p => (p.1 : ℚ) / (10 : ℚ) ^ p.2)
        | _, [] => (digitPartVal l).map (fun n => (n : ℚ))
        | _, _ =>
            match digitPartVal l, fracPartVal r with
            | some ip, some fp => some ((ip : ℚ) + (fp.1 : ℚ) / (10 : ℚ) ^ fp.2)
            | _, _ => Option.none

/-- `float(s)` for a string argument. -/
def pyFloatOfString (s : String) : Option Val :=
  let cs := s.toList
  let cs := ((cs.dropWhile isPyWs).reverse.dropWhile isPyWs).reverse
  match cs with
  | [] => Option.none
  | _ =>
    let sgn : Bool × List Char :=
      match cs with
      | '+' :: rest => (false, rest)
      | '-' :: rest => (true, rest)
      | _ => (false, cs)
    let neg := sgn.1
    let lower := sgn.2.map Char.toLower
    if lower = ['i', 'n', 'f'] ∨ lower = "infinity".toList then some (Val.inf neg)
    else if lower = ['n', 'a', 'n'] then some Val.nan
    else
      match splitOnChar 'e' lower with
      | Option.none =>
          (mantissaVal lower).map (fun q => Val.float (if neg then -q else q))
      | some (m, e) =>
          let esgn : Bool × List Char :=
            match e with
            | '+' :: rest => (false, rest)
            | '-' :: rest => (true, rest)
            | _ => (false, e)
          match mantissaVal m, digitPartVal esgn.2 with
          | some q, some ev =>
              let mag : ℚ := (10 : ℚ) ^ ev
              let q := if esgn.1 then q / mag else q * mag
              some (Val.float (if neg then -q else q))
          | _, _ => Option.none

/-- The Python builtin `float(v)`; `Option.none` models a raised exception. -/
def pyFloat (v : Val) : Option Val :=
  match v with
  | Val.null => Option.none          -- TypeError
  | Val.int n => some (Val.float n)
  | Val.float q => some (Val.float q)
  | Val.nan => some Val.nan
  | Val.inf b => some (Val.inf b)
  | Val.str s => pyFloatOfString s

/-! ### `DataCleaner` (`src/data_cleaner.py`) -/

/-- The fixed metadata field set of `DataCleaner._measurement_columns`. -/
def leadingKeys : List String := ["date", "hour", "latitude", "longitude", "time"]

/-- `DataCleaner._measurement_columns`: every column except the metadata set,
in input order. -/
def measurementColumns (columns : List String) : List String :=
  columns.filter (fun c => decide (c ∉ leadingKeys))

/-- `DataCleaner._is_nan_like`: None is missing; otherwise `np.isnan` is
tried, which is true exactly on the NaN sentinel, false on other numbers
and infinities, and raises (hence false) on strings. -/
def isNanLike (v : Val) : Bool :=
  match v with
  | Val.null => true
  | Val.nan => true
  | _ => false

/-- pandas missingness (`dropna` / `fillna`): None and NaN are missing;
strings and infinities are not. Coincides with `isNanLike` on `Val`. -/
def pdIsNA (v : Val) : Bool :=
  match v with
  | Val.null => true
  | Val.nan => true
  | _ => false

/-- The `all_measures_nan` predicate of `DataCleaner._clean_rows`:
`r.get(k)` yields None for an absent key. -/
def allMeasuresNan (mk : List String) (r : Row) : Bool :=
  mk.all (fun k => isNanLike (pyGet r k))

/-- The per-measurement coercion of `_clean_rows`: `float(v)` with None and
exceptions mapped to NaN, then NaN (`fv != fv`) replaced by `0.0`. -/
def coerceMeasure (v : Val) : Val :=
  let fv : Val := if v = Val.null then Val.nan else (pyFloat v).getD Val.nan
  if fv = Val.nan then Val.float 0 else fv

/-- The coordinate normalization of `_clean_rows`: `float(v)` with `0.0` on a
raised exception only — a NaN value passes `float()` and stays NaN. -/
def coerceCoord (v : Val) : Val := (pyFloat v).getD (Val.float 0)

/-- The measurement loop of `_clean_rows` over one row: each measurement key
is read (None when absent) and written back coerced, appending the key when
it was absent. -/
def normMeasures (mk : List String) (r : Row) : Row :=
  mk.foldl (fun acc k => dset acc k (coerceMeasure (pyGet acc k))) r

/-- One iteration of the `("latitude", "longitude")` loop of `_clean_rows`:
only present keys are touched. -/
def normCoord1 (r : Row) (k : String) : Row :=
  match dget r k with
  | Option.none => r
  | some v => dset r k (coerceCoord v)

/-- Full per-row normalization of `_clean_rows`: measurements, then
latitude, then longitude. -/
def normRow (mk : List String) (r : Row) : Row :=
  normCoord1 (normCoord1 (normMeasures mk r) "latitude") "longitude"

/-- `DataCleaner._clean_rows`: measurement keys come from the first row;
rows with every measurement missing are skipped; the rest are normalized
and appended in order. -/
def cleanRows (rows : List Row) : List Row :=
  match rows with
  | [] => rows
  | r0 :: _ =>
    let mk := measurementColumns (dkeys r0)
    rows.foldl
      (fun cleaned r =>
        if allMeasuresNan mk r then cleaned else cleaned ++ [normRow mk r])
      []

/-- `pd.to_numeric(v, errors="coerce")` on one cell: numbers pass through,
None and unparseable strings become NaN, numeric strings are parsed.
(pandas keeps integer dtype for integer input; parsed string results are
modelled as floats, which is numerically identical.) -/
def toNumericCoerce (v : Val) : Val :=
  match v with
  | Val.null => Val.nan
  | Val.int n => Val.int n
  | Val.float q => Val.float q
  | Val.nan => Val.nan
  | Val.inf b => Val.inf b
  | Val.str s => (pyFloatOfString s).getD Val.nan

/-- `fillna(0)` on one cell. -/
def fillZero (v : Val) : Val := if pdIsNA v then Val.float 0 else v

/-- Column-wise cell map, `df[c] = f(df[c])`. -/
def mapCol (c : String) (f : Val → Val) (rows : List Row) : List Row :=
  rows.map (fun r => dset r c (f (tblGet r c)))

/-- `DataCleaner._clean_dataframe`: with no measurement columns the frame is
returned as-is (a copy); otherwise rows that are all-NA on the measurement
columns are dropped, measurement columns are numeric-coerced then
zero-filled, and `latitude`/`longitude` are numeric-coerced with NaN → 0.
`reset_index(drop=True)` has no observable effect in this model. -/
def cleanDataframe (df : Table) : Table :=
  let cols := measurementColumns df.cols
  if cols.isEmpty then df
  else
    let kept := df.rows.filter (fun r => !(cols.all (fun c => pdIsNA (tblGet r c))))
    let coerced := cols.foldl (fun rs c => mapCol c toNumericCoerce rs) kept
    let filled := cols.foldl (fun rs c => mapCol c fillZero rs) coerced
    let latFixed :=
      if df.cols.contains "latitude"
      then mapCol "latitude" (fun v => fillZero (toNumericCoerce v)) filled
      else filled
    let lonFixed :=
      if df.cols.contains "longitude"
      then mapCol "longitude" (fun v => fillZero (toNumericCoerce v)) latFixed
      else latFixed
    { cols := df.cols, rows := lonFixed }

/-- The dynamic input shapes `DataCleaner.clean` dispatches on. -/
inductive PyData where
  | frame (df : Table)
  | rowList (rs : List Row)
  | otherData
deriving DecidableEq

/-- `DataCleaner.clean`: DataFrames go to `_clean_dataframe`, lists of dicts
to `_clean_rows`, anything else is returned unchanged. -/
def clean : PyData → PyData
  | PyData.frame df => PyData.frame (cleanDataframe df)
  | PyData.rowList rs => PyData.rowList (cleanRows rs)
  | PyData.otherData => PyData.otherData

/-! ### `OpenMeteoParser` (`src/openmeteo_parser.py`)

The external Open-Meteo response object is captured by its four required
capabilities (spec interface): `Hourly()` exposing `Time`, `TimeEnd`,
`Interval` and the per-variable numpy value arrays, plus the fixed
`Latitude`/`Longitude` coordinates. -/

structure HourlyData where
  Time : Int                       -- epoch seconds
  TimeEnd : Int                    -- epoch seconds
  Interval : Int                   -- seconds
  Variables : List (List Val)      -- `Variables(i).ValuesAsNumpy()`
deriving DecidableEq

structure Response where
  hourly : HourlyData
  Latitude : ℚ
  Longitude : ℚ
deriving DecidableEq

/-- `OpenMeteoParser._time_index`. -/
def timeIndex (r : Response) : Int × Int × Int :=
  (r.hourly.Time, r.hourly.TimeEnd, r.hourly.Interval)

/-- Fuel-driven body of Python `range` with a positive step: structural
recursion so that concrete instances compute by `decide`/`rfl`. -/
def pyRangePosAux : Nat → Int → Int → Nat → List Int
  | 0, _, _, _ => []
  | Nat.succ fuel, s, e, st =>
      if s < e ∧ 0 < st then s :: pyRangePosAux fuel (s + st) e st else []

/-- `range(s, e, st)` for a positive step `st`: the fuel `(e - s).toNat`
bounds the element count since every step advances by `st ≥ 1`. -/
def pyRangePos (s e : Int) (st : Nat) : List Int :=
  pyRangePosAux (e - s).toNat s e st

/-- Fuel-driven body of Python `range` with a negative step. -/
def pyRangeNegAux : Nat → Int → Int → Nat → List Int
  | 0, _, _, _ => []
  | Nat.succ fuel, s, e, st =>
      if e < s ∧ 0 < st then s :: pyRangeNegAux fuel (s - st) e st else []

/-- `range(s, e, step)` for a negative step of magnitude `st`. -/
def pyRangeNeg (s e : Int) (st : Nat) : List Int :=
  pyRangeNegAux (s - e).toNat s e st

/-- The Python builtin `range(s, e, step)` as used on line 78 of
`openmeteo_parser.py`: step 0 raises `ValueError`; a negative step counts
down and raises nothing. -/
def pyRange (s e step : Int) : Except String (List Int) :=
  if step = 0 then Except.error "range() arg 3 must not be zero"
  else if 0 < step then Except.ok (pyRangePos s e step.toNat)
  else Except.ok (pyRangeNeg s e (-step).toNat)

/-- The literal row skeleton built for each timestamp in `to_rows`:
raw epoch-second date, absent hour, the response coordinates. -/
def baseRow (ts : Int) (lat lon : ℚ) : Row :=
  [("date", Val.int ts), ("hour", Val.null),
   ("latitude", Val.float lat), ("longitude", Val.float lon)]

/-- The `for i, key in enumerate(hourly_keys): row[key] = values_series[i][idx]`
loop of `to_rows`, for one row index. Indexing a series at `idx` is total
here; `to_rows` only calls it for `idx` below every series length. -/
def addVarEntries (kvs : List (String × List Val)) (idx : Nat) (base : Row) : Row :=
  kvs.foldl (fun row kv => dset row kv.1 (kv.2.getD idx Val.nan)) base

/-- The first `hourly_keys.length` value series, i.e. the prefetch
`[hourly.Variables(i).ValuesAsNumpy() for i in range(len(hourly_keys))]`.
(The model presumes the response provides at least that many variables —
the spec invariant; theorems carry that hypothesis.) -/
def seriesOf (r : Response) (hourly_keys : List String) : List (List Val) :=
  r.hourly.Variables.take hourly_keys.length

/-- The usable length `m = min(len(times), *(len(v) for v in values_series))`
of `to_rows`, defaulting to `len(times)` when there are no series. -/
def usableLen (timesLen : Nat) (series : List (List Val)) : Nat :=
  if series.isEmpty then timesLen
  else (series.map List.length).foldl min timesLen

/-- `OpenMeteoParser.to_rows`. -/
def to_rows (r : Response) (hourly_keys : List String) : Except String (List Row) := do
  let (start, stop, interval) := timeIndex r
  let times ← pyRange start stop interval
  let values_series := seriesOf r hourly_keys
  let m := usableLen times.length values_series
  Except.ok ((List.range m).map (fun idx =>
    addVarEntries (hourly_keys.zip values_series) idx
      (baseRow (times.getD idx 0) r.Latitude r.Longitude)))

/-! #### UTC formatting used by `to_dataframe`

`df["time"].dt.strftime("%Y-%m-%d")` / `("%H:%M")` on UTC timestamps,
modelled by the standard Gregorian civil-from-days conversion. -/

/-- `n` zero-padded to `width` digits. -/
def padNum (width n : Nat) : String :=
  let s := toString n
  String.mk (List.replicate (width - s.length) '0') ++ s

/-- Days since 1970-01-01 to (year, month, day), proleptic Gregorian. -/
def civilFromDays (z0 : Int) : Int × Nat × Nat :=
  let z := z0 + 719468
  let era : Int := z.fdiv 146097
  let doe : Nat := (z - era * 146097).toNat
  let yoe : Nat := (doe - doe / 1460 + doe / 36524 - doe / 146096) / 365
  let y : Int := (yoe : Int) + era * 400
  let doy : Nat := doe - (365 * yoe + yoe / 4 - yoe / 100)
  let mp : Nat := (5 * doy + 2) / 153
  let d : Nat := doy - (153 * mp + 2) / 5 + 1
  let m : Nat := if mp < 10 then mp + 3 else mp - 9
  (if m ≤ 2 then y + 1 else y, m, d)

def fmtYear (y : Int) : String :=
  if y < 0 then "-" ++ padNum 4 (-y).toNat else padNum 4 y.toNat

/-- strftime `%Y-%m-%d` of an epoch-second timestamp interpreted as UTC. -/
def fmtDate (ts : Int) : String :=
  let c := civilFromDays (ts.fdiv 86400)
  fmtYear c.1 ++ "-" ++ padNum 2 c.2.1 ++ "-" ++ padNum 2 c.2.2

/-- strftime `%H:%M` of an epoch-second timestamp interpreted as UTC. -/
def fmtHour (ts : Int) : String :=
  let secs := (ts.emod 86400).toNat
  padNum 2 (secs / 3600) ++ ":" ++ padNum 2 (secs % 3600 / 60)

/-- The `time` cell of a frame row under construction (always an epoch int
for rows built by `to_dataframe`). -/
def timeCell (row : Row) : Int :=
  match dget row "time" with
  | some (Val.int n) => n
  | _ => 0

/-- One iteration of the variable loop of `to_dataframe`: on a length
mismatch both the frame and the value array are cut to the common minimum,
then `df[key] = values` (a new column is appended, an existing one is
overwritten in place). State: (column list, rows). -/
def dfAddVar (st : List String × List Row) (kv : String × List Val) :
    List String × List Row :=
  let rows := st.2
  let values := kv.2
  let p : List Row × List Val :=
    if values.length ≠ rows.length then
      (rows.take (min values.length rows.length),
       values.take (min values.length rows.length))
    else (rows, values)
  (if st.1.contains kv.1 then st.1 else st.1 ++ [kv.1],
   List.zipWith (fun row v => dset row kv.1 v) p.1 p.2)

/-- `df[key] = scalar`: broadcast to every row. -/
def dfSetScalar (st : List String × List Row) (key : String) (v : Val) :
    List String × List Row :=
  (if st.1.contains key then st.1 else st.1 ++ [key],
   st.2.map (fun row => dset row key v))

/-- `df[key] = df["time"].dt.strftime(...)`: a column derived per-row from
the `time` cell. -/
def dfSetFromTime (st : List String × List Row) (key : String) (f : Int → Val) :
    List String × List Row :=
  (if st.1.contains key then st.1 else st.1 ++ [key],
   st.2.map (fun row => dset row key (f (timeCell row))))

/-- `OpenMeteoParser.to_dataframe`, assuming pandas is available (the
`TabularEngineUnavailable` path is out of the claims' scope). The
`pd.date_range(start, end, freq, inclusive="left")` index equals
`range(start, end, interval)` for a positive interval; a non-positive
`freq` raises inside pandas, modelled by the error branch. The model is
faithful for `Time ≤ TimeEnd` (real responses), which theorems assume. -/
def to_dataframe (r : Response) (hourly_keys : List String) : Except String Table :=
  if r.hourly.Interval ≤ 0 then Except.error "invalid date_range frequency"
  else
    let times := pyRangePos r.hourly.Time r.hourly.TimeEnd r.hourly.Interval.toNat
    let st0 : List String × List Row :=
      (["time"], times.map (fun t => [("time", Val.int t)]))
    let st1 := (hourly_keys.zip (seriesOf r hourly_keys)).foldl dfAddVar st0
    let st2 := dfSetScalar st1 "latitude" (Val.float r.Latitude)
    let st3 := dfSetScalar st2 "longitude" (Val.float r.Longitude)
    let st4 := dfSetFromTime st3 "date" (fun t => Val.str (fmtDate t))
    let st5 := dfSetFromTime st4 "hour" (fun t => Val.str (fmtHour t))
    let leading := ["date", "hour", "latitude", "longitude"]
    let metrics := st5.1.filter (fun c => !((leading ++ ["time"]).contains c))
    Except.ok
      { cols := leading ++ metrics,
        rows := st5.2.map (fun row => (leading ++ metrics).map (fun c => (c, tblGet row c))) }

/-- The spec's correspondence between the row form and the table form
(§4.4): identical content except that `date` is reformatted `YYYY-MM-DD`
and `hour` becomes `HH:MM`, both from the record's raw epoch timestamp
interpreted as UTC. -/
def tableView (hourly_keys : List String) (row : Row) : Row :=
  let ts : Int :=
    match dget row "date" with
    | some (Val.int n) => n
    | _ => 0
  [("date", Val.str (fmtDate ts)), ("hour", Val.str (fmtHour ts)),
   ("latitude", (dget row "latitude").getD Val.nan),
   ("longitude", (dget row "longitude").getD Val.nan)]
  ++ hourly_keys.map (fun k => (k, (dget row k).getD Val.nan))

/-! ### Basic association-list lemmas -/

theorem dkeys_cons (k0 : String) (w : Val) (tl : Row) :
    dkeys ((k0, w) :: tl) = k0 :: dkeys tl := rfl

theorem dget_dset_same (r : Row) (k : String) (v : Val) :
    dget (dset r k v) k = some v := by
  induction r with
  | nil => simp [dset, dget]
  | cons hd tl ih =>
    obtain ⟨k', w⟩ := hd
    by_cases h : k' = k
    · simp [dset, dget, h]
    · simp [dset, dget, h, ih]

theorem dget_dset_ne (r : Row) (k k' : String) (v : Val) (h : k' ≠ k) :
    dget (dset r k' v) k = dget r k := by
  induction r with
  | nil => simp [dset, dget, h]
  | cons hd tl ih =>
    obtain ⟨k0, w⟩ := hd
    by_cases h0 : k0 = k'
    · subst h0
      simp [dset, dget, h]
    · by_cases h1 : k0 = k
      · subst h1
        simp [dset, dget, h0]
      · simp [dset, dget, h0, h1, ih]

theorem dget_eq_none_of_not_mem (r : Row) (k : String) (h : k ∉ dkeys r) :
    dget r k = Option.none := by
  induction r with
  | nil => simp [dget]
  | cons hd tl ih =>
    obtain ⟨k0, w⟩ := hd
    rw [dkeys_cons, List.mem_cons] at h
    push_neg at h
    have h0 : ¬ k0 = k := fun hh => h.1 hh.symm
    simpa [dget, h0] using ih h.2

theorem dget_isSome_of_mem (r : Row) (k : String) (h : k ∈ dkeys r) :
    (dget r k).isSome := by
  induction r with
  | nil => simp [dkeys] at h
  | cons hd tl ih =>
    obtain ⟨k0, w⟩ := hd
    by_cases h0 : k0 = k
    · simp [dget, h0]
    · rw [dkeys_cons, List.mem_cons] at h
      rcases h with h | h
      · exact absurd h.symm h0
      · simpa [dget, h0] using ih h

theorem dkeys_dset_of_mem (r : Row) (k : String) (v : Val) (h : k ∈ dkeys r) :
    dkeys (dset r k v) = dkeys r := by
  induction r with
  | nil => simp [dkeys] at h
  | cons hd tl ih =>
    obtain ⟨k0, w⟩ := hd
    by_cases h0 : k0 = k
    · simp [dset, dkeys, h0]
    · rw [dkeys_cons, List.mem_cons] at h
      rcases h with h | h
      · exact absurd h.symm h0
      · simpa [dset, dkeys, h0] using ih h

theorem dkeys_dset_of_not_mem (r : Row) (k : String) (v : Val) (h : k ∉ dkeys r) :
    dkeys (dset r k v) = dkeys r ++ [k] := by
  induction r with
  | nil => simp [dset, dkeys]
  | cons hd tl ih =>
    obtain ⟨k0, w⟩ := hd
    rw [dkeys_cons, List.mem_cons] at h
    push_neg at h
    have h0 : ¬ k0 = k := fun hh => h.1 hh.symm
    simpa [dset, dkeys, h0] using ih h.2

theorem dset_self (r : Row) (k : String) (v : Val) (h : dget r k = some v) :
    dset r k v = r := by
  induction r with
  | nil => simp [dget] at h
  | cons hd tl ih =>
    obtain ⟨k0, w⟩ := hd
    by_cases h0 : k0 = k
    · subst h0
      have hw : w = v := by simpa [dget] using h
      simp [dset, hw]
    · rw [dget, if_neg h0] at h
      simp [dset, h0, ih h]

theorem row_ne_of_dget_ne (a b : Row) (k : String) (h : dget a k ≠ dget b k) :
    a ≠ b := fun hab => h (hab ▸ rfl)

/-! ### Fold lemmas for the cleaning pipelines -/

/-- A cell-wise update loop over a list of keys, generalizing both the
measurement loop of `_clean_rows` and the column passes of
`_clean_dataframe` (the argument of `g` is the raw lookup result). -/
def rowMapColsO (g : Option Val → Val) (cols : List String) (r : Row) : Row :=
  cols.foldl (fun acc c => dset acc c (g (dget acc c))) r

theorem normMeasures_eq_rowMapColsO (mk : List String) (r : Row) :
    normMeasures mk r = rowMapColsO (fun o => coerceMeasure (o.getD Val.null)) mk r := rfl

theorem dget_rowMapColsO_not_mem (g : Option Val → Val) (cols : List String)
    (r : Row) (c : String) (h : c ∉ cols) :
    dget (rowMapColsO g cols r) c = dget r c := by
  induction cols generalizing r with
  | nil => rfl
  | cons c0 cs ih =>
    rw [List.mem_cons] at h
    push_neg at h
    have := ih (dset r c0 (g (dget r c0))) h.2
    rw [rowMapColsO, List.foldl_cons]
    rw [rowMapColsO] at this
    rw [this, dget_dset_ne _ _ _ _ (fun hh => h.1 hh.symm)]

theorem dget_rowMapColsO_mem (g : Option Val → Val) (cols : List String)
    (r : Row) (c : String) (hnd : cols.Nodup) (h : c ∈ cols) :
    dget (rowMapColsO g cols r) c = some (g (dget r c)) := by
  induction cols generalizing r with
  | nil => simp at h
  | cons c0 cs ih =>
    rw [List.nodup_cons] at hnd
    rw [rowMapColsO, List.foldl_cons]
    by_cases hc : c = c0
    · subst hc
      have : dget (rowMapColsO g cs (dset r c (g (dget r c)))) c
          = dget (dset r c (g (dget r c))) c :=
        dget_rowMapColsO_not_mem g cs _ c hnd.1
      rw [rowMapColsO] at this
      rw [this, dget_dset_same]
    · have hmem : c ∈ cs := by
        rcases List.mem_cons.1 h with h' | h'
        · exact absurd h' hc
        · exact h'
      have := ih (dset r c0 (g (dget r c0))) hnd.2 hmem
      rw [rowMapColsO] at this
      rw [this, dget_dset_ne _ _ _ _ (fun hh => hc hh.symm)]

theorem dkeys_rowMapColsO (g : Option Val → Val) (cols : List String)
    (r : Row) (hnd : cols.Nodup) :
    dkeys (rowMapColsO g cols r)
      = dkeys r ++ cols.filter (fun c => decide (c ∉ dkeys r)) := by
  induction cols generalizing r with
  | nil => simp [rowMapColsO]
  | cons c0 cs ih =>
    rw [List.nodup_cons] at hnd
    rw [rowMapColsO, List.foldl_cons]
    have step := ih (dset r c0 (g (dget r c0))) hnd.2
    rw [rowMapColsO] at step
    by_cases hc : c0 ∈ dkeys r
    · rw [step, dkeys_dset_of_mem _ _ _ hc]
      simp only [List.filter_cons, hc]
      simp
    · rw [step, dkeys_dset_of_not_mem _ _ _ hc]
      have hfilter : cs.filter (fun c => decide (c ∉ dkeys r ++ [c0]))
          = cs.filter (fun c => decide (c ∉ dkeys r)) := by
        apply List.filter_congr
        intro c hcmem
        have hne : c ≠ c0 := fun hh => hnd.1 (hh ▸ hcmem)
        simp [hne]
      simp only [hfilter]
      simp only [List.filter_cons, hc]
      simp [List.append_assoc]

theorem rowMapColsO_id (g : Option Val → Val) (cols : List String) (r : Row)
    (h : ∀ c ∈ cols, dget r c = some (g (dget r c))) :
    rowMapColsO g cols r = r := by
  induction cols with
  | nil => rfl
  | cons c0 cs ih =>
    rw [rowMapColsO, List.foldl_cons,
        dset_self _ _ _ (h c0 (List.mem_cons_self _ _))]
    exact ih fun c hc => h c (List.mem_cons_of_mem _ hc)

/-- The append-accumulating loop of `_clean_rows` is a stable filter + map. -/
theorem foldl_filter_append {α β : Type} (p : α → Bool) (f : α → β) (l : List α) :
    ∀ acc : List β,
      l.foldl (fun c r => if p r then c else c ++ [f r]) acc
        = acc ++ (l.filter (fun r => !p r)).map f := by
  induction l with
  | nil => intro acc; simp
  | cons a l ih =>
    intro acc
    by_cases h : p a
    · simp [h, ih]
    · simp [h, ih, List.append_assoc]

theorem cleanRows_eq (r0 : Row) (rest : List Row) :
    cleanRows (r0 :: rest)
      = ((r0 :: rest).filter
          (fun r => !allMeasuresNan (measurementColumns (dkeys r0)) r)).map
          (normRow (measurementColumns (dkeys r0))) := by
  rw [cleanRows]
  exact (foldl_filter_append _ _ _ []).trans (by simp)

/-- A sequence of whole-column maps is a row-wise map of the cell loop. -/
theorem foldl_mapCol (g : Val → Val) (cols : List String) :
    ∀ rs : List Row,
      cols.foldl (fun l c => mapCol c g l) rs
        = rs.map (rowMapColsO (fun o => g (o.getD Val.nan)) cols) := by
  induction cols with
  | nil =>
    intro rs
    simp only [List.foldl_nil]
    exact (List.map_id'' (fun r => rfl) rs).symm
  | cons c0 cs ih =>
    intro rs
    rw [List.foldl_cons, ih, mapCol, List.map_map]
    apply List.map_congr_left
    intro r _
    rfl

/-! ### Minimum-fold and range lemmas -/

theorem foldl_min_le_init (ls : List Nat) : ∀ a : Nat, ls.foldl min a ≤ a := by
  induction ls with
  | nil => intro a; simp
  | cons x ls ih =>
    intro a
    calc ls.foldl min (min a x) ≤ min a x := ih (min a x)
    _ ≤ a := Nat.min_le_left _ _

theorem foldl_min_le_mem (ls : List Nat) :
    ∀ (a b : Nat), b ∈ ls → ls.foldl min a ≤ b := by
  induction ls with
  | nil => intro a b h; simp at h
  | cons x ls ih =>
    intro a b h
    rcases List.mem_cons.1 h with h | h
    · subst h
      calc ls.foldl min (min a b) ≤ min a b := foldl_min_le_init ls _
      _ ≤ b := Nat.min_le_right _ _
    · exact ih (min a x) b h

theorem foldl_min_attained (ls : List Nat) :
    ∀ a : Nat, ls.foldl min a = a ∨ ls.foldl min a ∈ ls := by
  induction ls with
  | nil => intro a; simp
  | cons x ls ih =>
    intro a
    rcases ih (min a x) with h | h
    · rcases Nat.le_total a x with hax | hxa
      · left
        rw [List.foldl_cons, h, Nat.min_eq_left hax]
      · right
        rw [List.foldl_cons, h, Nat.min_eq_right hxa]
        exact List.mem_cons_self _ _
    · right
      exact List.mem_cons_of_mem _ h

theorem usableLen_le_times (timesLen : Nat) (series : List (List Val)) :
    usableLen timesLen series ≤ timesLen := by
  rw [usableLen]
  by_cases h : series.isEmpty <;> simp [h, foldl_min_le_init]

theorem usableLen_le_series (timesLen : Nat) (series : List (List Val))
    (vs : List Val) (h : vs ∈ series) :
    usableLen timesLen series ≤ vs.length := by
  rw [usableLen]
  have hne : ¬ series.isEmpty := by
    cases series with
    | nil => simp at h
    | cons a l => simp
  simp only [hne, if_neg, Bool.false_eq_true, not_false_eq_true]
  exact foldl_min_le_mem _ _ _ (List.mem_map_of_mem _ h)

/-- Characterization of Python `range` with positive step: element `k`
exists iff `s + k·st < e`, and equals `s + k·st`. -/
theorem pyRangePosAux_spec (st : Nat) (hst : 0 < st) :
    ∀ (fuel : Nat) (s e : Int), (e - s).toNat ≤ fuel →
      (∀ k : Nat, (k < (pyRangePosAux fuel s e st).length ↔ s + k * st < e)) ∧
      (∀ k : Nat, k < (pyRangePosAux fuel s e st).length →
        (pyRangePosAux fuel s e st).getD k 0 = s + k * st) := by
  intro fuel
  induction fuel with
  | zero =>
    intro s e hf
    have he : e ≤ s := by omega
    constructor
    · intro k
      have : ¬ (s + k * st < e) := by
        have : (0 : Int) ≤ k * st := by positivity
        omega
      simp [pyRangePosAux, this]
    · intro k h
      simp [pyRangePosAux] at h
  | succ fuel ih =>
    intro s e hf
    by_cases hse : s < e
    · have hcond : s < e ∧ 0 < st := ⟨hse, hst⟩
      have hexp : pyRangePosAux (fuel + 1) s e st
          = s :: pyRangePosAux fuel (s + st) e st := by
        simp [pyRangePosAux, hcond]
      have hf' : (e - (s + st)).toNat ≤ fuel := by omega
      have harith : ∀ k : Nat, (s + st) + k * st = s + (k + 1 : Nat) * st := by
        intro k
        push_cast
        ring
      constructor
      · intro k
        cases k with
        | zero => simp [hexp, hse]
        | succ k =>
          rw [hexp]
          simp only [List.length_cons, Nat.succ_lt_succ_iff]
          rw [(ih (s + st) e hf').1 k, harith k]
      · intro k h
        cases k with
        | zero => simp [hexp]
        | succ k =>
          rw [hexp] at h
          simp only [List.length_cons, Nat.succ_lt_succ_iff] at h
          rw [hexp, List.getD_cons_succ, (ih (s + st) e hf').2 k h, harith k]
    · have hexp : pyRangePosAux (fuel + 1) s e st = [] := by
        simp [pyRangePosAux, hse]
      constructor
      · intro k
        have : ¬ (s + k * st < e) := by
          have : (0 : Int) ≤ k * st := by positivity
          omega
        simp [hexp, this]
      · intro k h
        simp [hexp] at h

theorem pyRangePos_lt_iff (s e : Int) (st : Nat) (hst : 0 < st) (k : Nat) :
    k < (pyRangePos s e st).length ↔ s + k * st < e :=
  (pyRangePosAux_spec st hst _ s e le_rfl).1 k

theorem pyRangePos_getD (s e : Int) (st : Nat) (hst : 0 < st) (k : Nat)
    (h : k < (pyRangePos s e st).length) :
    (pyRangePos s e st).getD k 0 = s + k * st :=
  (pyRangePosAux_spec st hst _ s e le_rfl).2 k h

/-! ### Row-materializer lemmas -/

theorem dget_addVarEntries_not_mem (kvs : List (String × List Val)) (idx : Nat)
    (base : Row) (k : String) (h : k ∉ kvs.map Prod.fst) :
    dget (addVarEntries kvs idx base) k = dget base k := by
  induction kvs generalizing base with
  | nil => rfl
  | cons kv rest ih =>
    rw [List.map_cons, List.mem_cons] at h
    push_neg at h
    rw [addVarEntries, List.foldl_cons]
    have := ih (dset base kv.1 (kv.2.getD idx Val.nan)) h.2
    rw [addVarEntries] at this
    rw [this, dget_dset_ne _ _ _ _ (fun hh => h.1 hh.symm)]

theorem dget_addVarEntries_mem (kvs : List (String × List Val)) (idx : Nat)
    (base : Row) (k : String) (vs : List Val)
    (hnd : (kvs.map Prod.fst).Nodup) (h : (k, vs) ∈ kvs) :
    dget (addVarEntries kvs idx base) k = some (vs.getD idx Val.nan) := by
  induction kvs generalizing base with
  | nil => simp at h
  | cons kv rest ih =>
    rw [List.map_cons, List.nodup_cons] at hnd
    rw [addVarEntries, List.foldl_cons]
    rcases List.mem_cons.1 h with h' | h'
    · subst h'
      have := dget_addVarEntries_not_mem rest idx
        (dset base k (vs.getD idx Val.nan)) k hnd.1
      rw [addVarEntries] at this
      rw [this, dget_dset_same]
    · have := ih (dset base kv.1 (kv.2.getD idx Val.nan)) hnd.2 h'
      rw [addVarEntries] at this
      rw [this]

/-- The times list of `to_rows`/`to_dataframe` for a positive interval. -/
def timesOf (r : Response) : List Int :=
  pyRangePos r.hourly.Time r.hourly.TimeEnd r.hourly.Interval.toNat

/-- The record built by `to_rows` for aligned index `idx`. -/
def rowAt (r : Response) (hourly_keys : List String) (idx : Nat) : Row :=
  addVarEntries (hourly_keys.zip (seriesOf r hourly_keys)) idx
    (baseRow ((timesOf r).getD idx 0) r.Latitude r.Longitude)

/-- Normal form of `to_rows` for a positive interval. -/
theorem to_rows_eq (r : Response) (hourly_keys : List String)
    (hI : 0 < r.hourly.Interval) :
    to_rows r hourly_keys = Except.ok
      ((List.range (usableLen (timesOf r).length (seriesOf r hourly_keys))).map
        (rowAt r hourly_keys)) := by
  have hne : ¬ r.hourly.Interval = 0 := by omega
  have hrange : pyRange r.hourly.Time r.hourly.TimeEnd r.hourly.Interval
      = Except.ok (timesOf r) := by
    rw [pyRange, if_neg hne, if_pos hI]
    rfl
  unfold to_rows
  simp only [timeIndex]
  rw [hrange]
  rfl

theorem length_mem_map_length (vs : List Val) (series : List (List Val))
    (h : vs ∈ series) : vs.length ∈ series.map List.length :=
  List.mem_map_of_mem _ h

/-! ### Table-materializer lemmas -/

theorem getD_eq_getElem {α : Type} (l : List α) (i : Nat) (d : α)
    (h : i < l.length) : l.getD i d = l[i] := by
  rw [List.getD_eq_getElem?_getD, List.getElem?_eq_getElem h]
  rfl

theorem map_eq_range_getD {α β : Type} (d : α) (g : α → β) (l : List α) :
    l.map g = (List.range l.length).map (fun i => g (l.getD i d)) := by
  apply List.ext_getElem
  · simp
  · intro i h1 h2
    simp only [List.getElem_map, List.getElem_range]
    rw [getD_eq_getElem _ _ _ (by simpa using h2)]

theorem dfAddVar_rows (cols : List String) (key : String)
    (values : List Val) (n : Nat) (f : Nat → Row) :
    (dfAddVar (cols, (List.range n).map f) (key, values)).2
      = (List.range (min n values.length)).map
          (fun i => dset (f i) key (values.getD i Val.nan)) := by
  rw [dfAddVar]
  have hlen : ((List.range n).map f).length = n := by simp
  by_cases hc : values.length = ((List.range n).map f).length
  · simp only [hc, ne_eq, not_true_eq_false, if_false, ite_false]
    apply List.ext_getElem
    · simp [hc]
    · intro i h1 h2
      have hi : i < n := by simpa using h2
      have hiv : i < values.length := by omega
      simp only [List.getElem_zipWith, List.getElem_map, List.getElem_range]
      rw [getD_eq_getElem _ _ _ hiv]
  · simp only [hc, ne_eq, not_false_eq_true, if_true, ite_true]
    apply List.ext_getElem
    · simp
      omega
    · intro i h1 h2
      have hi : i < n ⊓ values.length := by simpa using h2
      have hiv : i < values.length := by omega
      simp only [List.getElem_zipWith, List.getElem_take, List.getElem_map,
        List.getElem_range]
      rw [getD_eq_getElem _ _ _ hiv]

/-- `minLen n kvs = min(n, len(v) for each series v of kvs)`. -/
def minLen (n : Nat) (kvs : List (String × List Val)) : Nat :=
  kvs.foldl (fun a kv => min a kv.2.length) n

theorem dfVarsFold_rows (kvs : List (String × List Val)) :
    ∀ (cols : List String) (n : Nat) (f : Nat → Row),
      (kvs.foldl dfAddVar (cols, (List.range n).map f)).2
        = (List.range (minLen n kvs)).map (fun i => addVarEntries kvs i (f i)) := by
  induction kvs with
  | nil =>
    intro cols n f
    simp [minLen, addVarEntries]
  | cons kv rest ih =>
    intro cols n f
    obtain ⟨key, values⟩ := kv
    rw [List.foldl_cons]
    have hpair : dfAddVar (cols, (List.range n).map f) (key, values)
        = ((dfAddVar (cols, (List.range n).map f) (key, values)).1,
           (List.range (min n values.length)).map
             (fun i => dset (f i) key (values.getD i Val.nan))) := by
      rw [← dfAddVar_rows cols key values n f]
    rw [hpair, ih]
    rfl

theorem dfVarsFold_cols (kvs : List (String × List Val)) :
    ∀ st : List String × List Row,
      (kvs.map Prod.fst).Nodup →
      (∀ kv ∈ kvs, kv.1 ∉ st.1) →
      (kvs.foldl dfAddVar st).1 = st.1 ++ kvs.map Prod.fst := by
  induction kvs with
  | nil => intro st _ _; simp
  | cons kv rest ih =>
    intro st hnd hdisj
    rw [List.map_cons, List.nodup_cons] at hnd
    rw [List.foldl_cons]
    have hmem : kv.1 ∉ st.1 := hdisj kv (List.mem_cons_self _ _)
    have hcols1 : (dfAddVar st kv).1 = st.1 ++ [kv.1] := by
      rw [dfAddVar]
      simp [hmem]
    have hdisj' : ∀ kv' ∈ rest, kv'.1 ∉ (dfAddVar st kv).1 := by
      intro kv' hkv'
      rw [hcols1]
      intro hin
      rcases List.mem_append.1 hin with hin | hin
      · exact hdisj kv' (List.mem_cons_of_mem _ hkv') hin
      · have : kv'.1 = kv.1 := by simpa using hin
        exact hnd.1 (this ▸ List.mem_map_of_mem Prod.fst hkv')
    rw [ih (dfAddVar st kv) hnd.2 hdisj', hcols1, List.append_assoc]
    rfl

theorem mem_leading_of_mem_keys (keys : List String)
    (hdisj : ∀ k ∈ keys, k ∉ leadingKeys) (k : String) (hk : k ∈ keys) :
    k ≠ "date" ∧ k ≠ "hour" ∧ k ≠ "latitude" ∧ k ≠ "longitude" ∧ k ≠ "time" := by
  have h := hdisj k hk
  refine ⟨?_, ?_, ?_, ?_, ?_⟩ <;>
    (intro hh; subst hh; exact h (by simp [leadingKeys]))

/-- Pointwise correspondence between one fully-built frame row (projected to
the final column order) and the `tableView` of the matching `to_rows`
record. -/
theorem proj_row_eq_tableView (keys : List String) (series : List (List Val))
    (lat lon : ℚ) (t : Int)
    (hfst : (keys.zip series).map Prod.fst = keys)
    (hnd : keys.Nodup) (hdisj : ∀ k ∈ keys, k ∉ leadingKeys) (i : Nat) :
    (["date", "hour", "latitude", "longitude"] ++ keys).map
      (fun c => (c, tblGet (dset (dset (dset (dset
          (addVarEntries (keys.zip series) i [("time", Val.int t)])
          "latitude" (Val.float lat)) "longitude" (Val.float lon))
          "date" (Val.str (fmtDate t))) "hour" (Val.str (fmtHour t))) c))
    = tableView keys (addVarEntries (keys.zip series) i (baseRow t lat lon)) := by
  have hndk : ((keys.zip series).map Prod.fst).Nodup := by rw [hfst]; exact hnd
  have hnotmem : ∀ c : String, c ∉ keys → c ∉ (keys.zip series).map Prod.fst := by
    intro c hc
    rw [hfst]
    exact hc
  have hdatemem : "date" ∉ (keys.zip series).map Prod.fst :=
    hnotmem _ (fun h => hdisj _ h (by simp [leadingKeys]))
  have hhourmem : "hour" ∉ (keys.zip series).map Prod.fst :=
    hnotmem _ (fun h => hdisj _ h (by simp [leadingKeys]))
  have hlatmem : "latitude" ∉ (keys.zip series).map Prod.fst :=
    hnotmem _ (fun h => hdisj _ h (by simp [leadingKeys]))
  have hlonmem : "longitude" ∉ (keys.zip series).map Prod.fst :=
    hnotmem _ (fun h => hdisj _ h (by simp [leadingKeys]))
  -- the raw timestamp recovered by `tableView` from the row record
  have hts : dget (addVarEntries (keys.zip series) i (baseRow t lat lon)) "date"
      = some (Val.int t) := by
    rw [dget_addVarEntries_not_mem _ _ _ _ hdatemem]
    simp [baseRow, dget]
  -- frame-side cells
  have hfdate : tblGet (dset (dset (dset (dset
      (addVarEntries (keys.zip series) i [("time", Val.int t)])
      "latitude" (Val.float lat)) "longitude" (Val.float lon))
      "date" (Val.str (fmtDate t))) "hour" (Val.str (fmtHour t))) "date"
      = Val.str (fmtDate t) := by
    rw [tblGet, dget_dset_ne _ _ _ _ (by decide), dget_dset_same]
    rfl
  have hfhour : tblGet (dset (dset (dset (dset
      (addVarEntries (keys.zip series) i [("time", Val.int t)])
      "latitude" (Val.float lat)) "longitude" (Val.float lon))
      "date" (Val.str (fmtDate t))) "hour" (Val.str (fmtHour t))) "hour"
      = Val.str (fmtHour t) := by
    rw [tblGet, dget_dset_same]
    rfl
  have hflat : tblGet (dset (dset (dset (dset
      (addVarEntries (keys.zip series) i [("time", Val.int t)])
      "latitude" (Val.float lat)) "longitude" (Val.float lon))
      "date" (Val.str (fmtDate t))) "hour" (Val.str (fmtHour t))) "latitude"
      = Val.float lat := by
    rw [tblGet, dget_dset_ne _ _ _ _ (by decide), dget_dset_ne _ _ _ _ (by decide),
      dget_dset_ne _ _ _ _ (by decide), dget_dset_same]
    rfl
  have hflon : tblGet (dset (dset (dset (dset
      (addVarEntries (keys.zip series) i [("time", Val.int t)])
      "latitude" (Val.float lat)) "longitude" (Val.float lon))
      "date" (Val.str (fmtDate t))) "hour" (Val.str (fmtHour t))) "longitude"
      = Val.float lon := by
    rw [tblGet, dget_dset_ne _ _ _ _ (by decide), dget_dset_ne _ _ _ _ (by decide),
      dget_dset_same]
    rfl
  -- record-side metadata cells
  have hrlat : dget (addVarEntries (keys.zip series) i (baseRow t lat lon)) "latitude"
      = some (Val.float lat) := by
    rw [dget_addVarEntries_not_mem _ _ _ _ hlatmem]
    simp [baseRow, dget]
  have hrlon : dget (addVarEntries (keys.zip series) i (baseRow t lat lon)) "longitude"
      = some (Val.float lon) := by
    rw [dget_addVarEntries_not_mem _ _ _ _ hlonmem]
    simp [baseRow, dget]
  rw [tableView, hts]
  rw [List.map_append]
  simp only [List.map_cons, List.map_nil]
  rw [hfdate, hfhour, hflat, hflon, hrlat, hrlon]
  congr 1
  apply List.map_congr_left
  intro k hk
  obtain ⟨hkd, hkh, hkla, hklo, hkt⟩ := mem_leading_of_mem_keys keys hdisj k hk
  obtain ⟨kv, hkv, hkv1⟩ := List.mem_map.1 (hfst ▸ hk)
  obtain ⟨k0, vs⟩ := kv
  simp only at hkv1
  rw [hkv1] at hkv
  have hfk : tblGet (dset (dset (dset (dset
      (addVarEntries (keys.zip series) i [("time", Val.int t)])
      "latitude" (Val.float lat)) "longitude" (Val.float lon))
      "date" (Val.str (fmtDate t))) "hour" (Val.str (fmtHour t))) k
      = vs.getD i Val.nan := by
    rw [tblGet, dget_dset_ne _ _ _ _ (Ne.symm hkh), dget_dset_ne _ _ _ _ (Ne.symm hkd),
      dget_dset_ne _ _ _ _ (Ne.symm hklo), dget_dset_ne _ _ _ _ (Ne.symm hkla),
      dget_addVarEntries_mem _ _ _ _ vs hndk hkv]
    rfl
  have hrk : dget (addVarEntries (keys.zip series) i (baseRow t lat lon)) k
      = some (vs.getD i Val.nan) :=
    dget_addVarEntries_mem _ _ _ _ vs hndk hkv
  rw [hfk, hrk]
  rfl

theorem minLen_eq_usableLen (n : Nat) (keys : List String)
    (series : List (List Val)) (hlen : series.length = keys.length) :
    minLen n (keys.zip series) = usableLen n series := by
  have hsnd : (keys.zip series).map Prod.snd = series :=
    List.map_snd_zip _ _ (le_of_eq hlen)
  rw [minLen, usableLen]
  by_cases hs : series.isEmpty
  · have hnil : series = [] := List.isEmpty_iff.1 hs
    subst hnil
    simp [hs]
  · rw [if_neg hs]
    conv_rhs => rw [← hsnd, List.map_map, List.foldl_map]
    rfl

/-- Normal form of `to_dataframe`: under the data-model invariants
(positive interval, enough variable series, distinct variable names not
clashing with metadata fields) the frame is column-ordered
`[date, hour, latitude, longitude, variables...]` and its rows are exactly
the `tableView` of the rows produced by `to_rows`. -/
theorem to_dataframe_eq (r : Response) (keys : List String)
    (hI : 0 < r.hourly.Interval)
    (hk : keys.length ≤ r.hourly.Variables.length)
    (hnd : keys.Nodup) (hdisj : ∀ k ∈ keys, k ∉ leadingKeys) :
    to_dataframe r keys = Except.ok
      { cols := ["date", "hour", "latitude", "longitude"] ++ keys,
        rows := ((List.range (usableLen (timesOf r).length (seriesOf r keys))).map
          (rowAt r keys)).map (tableView keys) } := by
  have hns : ¬ r.hourly.Interval ≤ 0 := by omega
  have hlen_series : (seriesOf r keys).length = keys.length := by
    rw [seriesOf, List.length_take]
    exact Nat.min_eq_left hk
  have hfst : (keys.zip (seriesOf r keys)).map Prod.fst = keys :=
    List.map_fst_zip _ _ (le_of_eq hlen_series.symm)
  have hndk : ((keys.zip (seriesOf r keys)).map Prod.fst).Nodup := by
    rw [hfst]; exact hnd
  have htime_nin : "time" ∉ keys := fun h => hdisj _ h (by simp [leadingKeys])
  have hlat_nin : "latitude" ∉ keys := fun h => hdisj _ h (by simp [leadingKeys])
  have hlon_nin : "longitude" ∉ keys := fun h => hdisj _ h (by simp [leadingKeys])
  have hdate_nin : "date" ∉ keys := fun h => hdisj _ h (by simp [leadingKeys])
  have hhour_nin : "hour" ∉ keys := fun h => hdisj _ h (by simp [leadingKeys])
  -- stage 1: the variable loop
  have h1 : (keys.zip (seriesOf r keys)).foldl dfAddVar
      (["time"], (timesOf r).map (fun t => [("time", Val.int t)]))
      = ("time" :: keys,
         (List.range (usableLen (timesOf r).length (seriesOf r keys))).map
           (fun i => addVarEntries (keys.zip (seriesOf r keys)) i
             [("time", Val.int ((timesOf r).getD i 0))])) := by
    refine Prod.ext_iff.2 ⟨?_, ?_⟩
    · rw [dfVarsFold_cols _ _ hndk (by
        intro kv hkv hin
        have : kv.1 ∈ keys := hfst ▸ List.mem_map_of_mem Prod.fst hkv
        rcases List.mem_singleton.1 hin with h
        exact htime_nin (h ▸ this))]
      rw [hfst]
      rfl
    · rw [show (timesOf r).map (fun t => [("time", Val.int t)])
          = (List.range (timesOf r).length).map
              (fun i => [("time", Val.int ((timesOf r).getD i 0))]) from
        map_eq_range_getD 0 _ _]
      rw [dfVarsFold_rows]
      rw [minLen_eq_usableLen _ _ _ hlen_series]
  have htime_kvs : "time" ∉ (keys.zip (seriesOf r keys)).map Prod.fst := by
    rw [hfst]; exact htime_nin
  -- stages 2..5: latitude, longitude, date, hour columns
  set ST5 := dfSetFromTime (dfSetFromTime (dfSetScalar (dfSetScalar
      ((keys.zip (seriesOf r keys)).foldl dfAddVar
        (["time"], (timesOf r).map (fun t => [("time", Val.int t)])))
      "latitude" (Val.float r.Latitude)) "longitude" (Val.float r.Longitude))
      "date" (fun t => Val.str (fmtDate t))) "hour" (fun t => Val.str (fmtHour t))
    with hST5
  have hcols5 : ST5.1 = "time" :: keys ++ ["latitude", "longitude", "date", "hour"] := by
    rw [hST5]
    show (let c4 := (let c3 := (let c2 := (let c1 :=
        ((keys.zip (seriesOf r keys)).foldl dfAddVar
          (["time"], (timesOf r).map (fun t => [("time", Val.int t)]))).1
        if c1.contains "latitude" then c1 else c1 ++ ["latitude"])
        if c2.contains "longitude" then c2 else c2 ++ ["longitude"])
        if c3.contains "date" then c3 else c3 ++ ["date"])
        if c4.contains "hour" then c4 else c4 ++ ["hour"]) = _
    rw [show ((keys.zip (seriesOf r keys)).foldl dfAddVar
        (["time"], (timesOf r).map (fun t => [("time", Val.int t)]))).1
        = "time" :: keys from by rw [h1]]
    simp [hlat_nin, hlon_nin, hdate_nin, hhour_nin]
  have hrows5 : ST5.2
      = (List.range (usableLen (timesOf r).length (seriesOf r keys))).map
          (fun i => dset (dset (dset (dset
            (addVarEntries (keys.zip (seriesOf r keys)) i
              [("time", Val.int ((timesOf r).getD i 0))])
            "latitude" (Val.float r.Latitude)) "longitude" (Val.float r.Longitude))
            "date" (Val.str (fmtDate ((timesOf r).getD i 0))))
            "hour" (Val.str (fmtHour ((timesOf r).getD i 0)))) := by
    rw [hST5]
    show (((((keys.zip (seriesOf r keys)).foldl dfAddVar
        (["time"], (timesOf r).map (fun t => [("time", Val.int t)]))).2.map
        (fun row => dset row "latitude" (Val.float r.Latitude))).map
        (fun row => dset row "longitude" (Val.float r.Longitude))).map
        (fun row => dset row "date" (Val.str (fmtDate (timeCell row))))).map
        (fun row => dset row "hour" (Val.str (fmtHour (timeCell row)))) = _
    rw [show ((keys.zip (seriesOf r keys)).foldl dfAddVar
        (["time"], (timesOf r).map (fun t => [("time", Val.int t)]))).2
        = (List.range (usableLen (timesOf r).length (seriesOf r keys))).map
            (fun i => addVarEntries (keys.zip (seriesOf r keys)) i
              [("time", Val.int ((timesOf r).getD i 0))]) from by rw [h1]]
    rw [List.map_map, List.map_map, List.map_map, List.map_map]
    apply List.map_congr_left
    intro i _
    simp only [Function.comp_apply]
    have hB : dget (dset (dset
        (addVarEntries (keys.zip (seriesOf r keys)) i
          [("time", Val.int ((timesOf r).getD i 0))])
        "latitude" (Val.float r.Latitude)) "longitude" (Val.float r.Longitude))
        "time" = some (Val.int ((timesOf r).getD i 0)) := by
      rw [dget_dset_ne _ _ _ _ (by decide), dget_dset_ne _ _ _ _ (by decide),
        dget_addVarEntries_not_mem _ _ _ _ htime_kvs]
      simp [dget]
    have htcB : timeCell (dset (dset
        (addVarEntries (keys.zip (seriesOf r keys)) i
          [("time", Val.int ((timesOf r).getD i 0))])
        "latitude" (Val.float r.Latitude)) "longitude" (Val.float r.Longitude))
        = (timesOf r).getD i 0 := by
      rw [timeCell, hB]
    have htcB2 : timeCell (dset (dset (dset
        (addVarEntries (keys.zip (seriesOf r keys)) i
          [("time", Val.int ((timesOf r).getD i 0))])
        "latitude" (Val.float r.Latitude)) "longitude" (Val.float r.Longitude))
        "date" (Val.str (fmtDate ((timesOf r).getD i 0))))
        = (timesOf r).getD i 0 := by
      rw [timeCell, dget_dset_ne _ _ _ _ (by decide), hB]
    rw [htcB, htcB2]
  have hmetrics : ST5.1.filter
      (fun c => !((["date", "hour", "latitude", "longitude"] ++ ["time"]).contains c))
      = keys := by
    rw [hcols5]
    have hall : ∀ k ∈ keys,
        (!((["date", "hour", "latitude", "longitude"] ++ ["time"]).contains k)) = true := by
      intro k hkm
      have h := hdisj k hkm
      simp [leadingKeys] at h
      simp [h.1, h.2.1, h.2.2.1, h.2.2.2.1, h.2.2.2.2]
    simp only [List.filter_cons, List.filter_append, List.filter_eq_self.2 hall]
    simp
  have hbody : (Except.ok
      ({ cols := (["date", "hour", "latitude", "longitude"]
                   ++ ST5.1.filter
                     (fun c =>
                       !((["date", "hour", "latitude", "longitude"] ++ ["time"]).contains c))),
         rows := (ST5.2.map
                   (fun row =>
                     (["date", "hour", "latitude", "longitude"]
                       ++ ST5.1.filter
                         (fun c =>
                           !((["date", "hour", "latitude", "longitude"]
                               ++ ["time"]).contains c))).map
                       (fun c => (c, tblGet row c)))) } : Table) : Except String Table)
      = Except.ok
        { cols := ["date", "hour", "latitude", "longitude"] ++ keys,
          rows := ((List.range (usableLen (timesOf r).length (seriesOf r keys))).map
            (rowAt r keys)).map (tableView keys) } := by
    simp only [hmetrics]
    rw [hrows5, List.map_map]
    congr 1
    congr 1
    conv_rhs => rw [List.map_map]
    apply List.map_congr_left
    intro i _
    exact proj_row_eq_tableView keys (seriesOf r keys) r.Latitude r.Longitude
      ((timesOf r).getD i 0) hfst hnd hdisj i
  unfold to_dataframe
  rw [if_neg hns]
  exact hbody

/-! ### Cleaner characterization -/

theorem not_mem_measurementColumns (cols : List String) (c : String)
    (h : c ∈ leadingKeys) : c ∉ measurementColumns cols := by
  intro hmem
  rw [measurementColumns, List.mem_filter] at hmem
  have h2 := hmem.2
  simp at h2
  exact h2 h

theorem measurementColumns_nodup (cols : List String) (h : cols.Nodup) :
    (measurementColumns cols).Nodup := h.filter _

theorem measurementColumns_subset (cols : List String) :
    measurementColumns cols ⊆ cols := fun c hc => (List.mem_filter.1 hc).1

theorem mem_measurementColumns (cols : List String) (c : String) :
    c ∈ measurementColumns cols ↔ c ∈ cols ∧ c ∉ leadingKeys := by
  rw [measurementColumns, List.mem_filter]
  simp

/-- One row through every per-cell step of `_clean_dataframe`:
numeric coercion, zero filling, then the two coordinate fixes. -/
def dfCleanRow (cols : List String) (r : Row) : Row :=
  let mcols := measurementColumns cols
  let r2 := rowMapColsO (fun o => fillZero (o.getD Val.nan)) mcols
              (rowMapColsO (fun o => toNumericCoerce (o.getD Val.nan)) mcols r)
  let r3 := if cols.contains "latitude"
            then dset r2 "latitude" (fillZero (toNumericCoerce (tblGet r2 "latitude")))
            else r2
  if cols.contains "longitude"
  then dset r3 "longitude" (fillZero (toNumericCoerce (tblGet r3 "longitude")))
  else r3

theorem cleanDataframe_eq (df : Table)
    (hmc : (measurementColumns df.cols).isEmpty = false) :
    cleanDataframe df
      = { cols := df.cols,
          rows := (df.rows.filter (fun r =>
              !((measurementColumns df.cols).all (fun c => pdIsNA (tblGet r c))))).map
            (dfCleanRow df.cols) } := by
  unfold cleanDataframe
  rw [if_neg (by simp [hmc])]
  have hrows : (if df.cols.contains "longitude"
      then mapCol "longitude" (fun v => fillZero (toNumericCoerce v))
        (if df.cols.contains "latitude"
         then mapCol "latitude" (fun v => fillZero (toNumericCoerce v))
           ((measurementColumns df.cols).foldl (fun rs c => mapCol c fillZero rs)
             ((measurementColumns df.cols).foldl (fun rs c => mapCol c toNumericCoerce rs)
               (df.rows.filter (fun r =>
                 !((measurementColumns df.cols).all (fun c => pdIsNA (tblGet r c)))))))
         else
           ((measurementColumns df.cols).foldl (fun rs c => mapCol c fillZero rs)
             ((measurementColumns df.cols).foldl (fun rs c => mapCol c toNumericCoerce rs)
               (df.rows.filter (fun r =>
                 !((measurementColumns df.cols).all (fun c => pdIsNA (tblGet r c))))))))
      else
        (if df.cols.contains "latitude"
         then mapCol "latitude" (fun v => fillZero (toNumericCoerce v))
           ((measurementColumns df.cols).foldl (fun rs c => mapCol c fillZero rs)
             ((measurementColumns df.cols).foldl (fun rs c => mapCol c toNumericCoerce rs)
               (df.rows.filter (fun r =>
                 !((measurementColumns df.cols).all (fun c => pdIsNA (tblGet r c)))))))
         else
           ((measurementColumns df.cols).foldl (fun rs c => mapCol c fillZero rs)
             ((measurementColumns df.cols).foldl (fun rs c => mapCol c toNumericCoerce rs)
               (df.rows.filter (fun r =>
                 !((measurementColumns df.cols).all (fun c => pdIsNA (tblGet r c)))))))))
      = (df.rows.filter (fun r =>
          !((measurementColumns df.cols).all (fun c => pdIsNA (tblGet r c))))).map
            (dfCleanRow df.cols) := by
    rw [foldl_mapCol, foldl_mapCol, List.map_map]
    by_cases hlat : "latitude" ∈ df.cols <;>
      by_cases hlon : "longitude" ∈ df.cols <;>
        simp only [mapCol, List.map_map, hlat, hlon, List.contains, List.elem_eq_mem,
          decide_True, decide_False, ite_true, ite_false, decide_eq_true_eq,
          Bool.false_eq_true, eq_self_iff_true, if_true, if_false] <;>
          (apply List.map_congr_left
           intro r _
           simp [dfCleanRow, hlat, hlon, Function.comp])
  exact congrArg (Table.mk df.cols) hrows

theorem dget_normCoord1_same (r : Row) (k : String) :
    dget (normCoord1 r k) k = (dget r k).map coerceCoord := by
  rw [normCoord1]
  cases h : dget r k with
  | none => simp [h]
  | some v => simp [dget_dset_same]

theorem dget_normCoord1_ne (r : Row) (k k' : String) (h : k' ≠ k) :
    dget (normCoord1 r k') k = dget r k := by
  rw [normCoord1]
  cases h2 : dget r k' with
  | none => rfl
  | some v => rw [dget_dset_ne _ _ _ _ h]

theorem dkeys_normCoord1 (r : Row) (k : String) :
    dkeys (normCoord1 r k) = dkeys r := by
  rw [normCoord1]
  cases h : dget r k with
  | none => rfl
  | some v =>
    apply dkeys_dset_of_mem
    by_contra hmem
    rw [dget_eq_none_of_not_mem _ _ hmem] at h
    exact Option.noConfusion h

/-- Cell value of a measurement key after `_clean_rows` normalization. -/
theorem dget_normRow_measure (mk : List String) (r : Row) (k : String)
    (hnd : mk.Nodup) (hk : k ∈ mk)
    (hlat : k ≠ "latitude") (hlon : k ≠ "longitude") :
    dget (normRow mk r) k = some (coerceMeasure (pyGet r k)) := by
  rw [normRow, dget_normCoord1_ne _ _ _ (Ne.symm hlon),
    dget_normCoord1_ne _ _ _ (Ne.symm hlat),
    normMeasures_eq_rowMapColsO, dget_rowMapColsO_mem _ _ _ _ hnd hk]
  rfl

/-- Keys outside the measurement set and not coordinates are untouched. -/
theorem dget_normRow_other (mk : List String) (r : Row) (k : String)
    (hk : k ∉ mk) (hlat : k ≠ "latitude") (hlon : k ≠ "longitude") :
    dget (normRow mk r) k = dget r k := by
  rw [normRow, dget_normCoord1_ne _ _ _ (Ne.symm hlon),
    dget_normCoord1_ne _ _ _ (Ne.symm hlat),
    normMeasures_eq_rowMapColsO, dget_rowMapColsO_not_mem _ _ _ _ hk]

/-- Coordinate cells after `_clean_rows` normalization: `float()` with `0`
only on a raised exception. -/
theorem dget_normRow_lat (mk : List String) (r : Row)
    (hmk : "latitude" ∉ mk) :
    dget (normRow mk r) "latitude"
      = (dget r "latitude").map coerceCoord := by
  rw [normRow, dget_normCoord1_ne _ _ _ (by decide), dget_normCoord1_same,
    normMeasures_eq_rowMapColsO, dget_rowMapColsO_not_mem _ _ _ _ hmk]

theorem dget_normRow_lon (mk : List String) (r : Row)
    (hmk : "longitude" ∉ mk) (hlatmk : "latitude" ∉ mk) :
    dget (normRow mk r) "longitude"
      = (dget r "longitude").map coerceCoord := by
  rw [normRow, dget_normCoord1_same, dget_normCoord1_ne _ _ _ (by decide),
    normMeasures_eq_rowMapColsO, dget_rowMapColsO_not_mem _ _ _ _ hmk]

theorem dkeys_normRow (mk : List String) (r : Row) (hnd : mk.Nodup) :
    dkeys (normRow mk r)
      = dkeys r ++ mk.filter (fun c => decide (c ∉ dkeys r)) := by
  rw [normRow, dkeys_normCoord1, dkeys_normCoord1,
    normMeasures_eq_rowMapColsO, dkeys_rowMapColsO _ _ _ hnd]

theorem dkeys_normRow_of_subset (mk : List String) (r : Row) (hnd : mk.Nodup)
    (hsub : ∀ c ∈ mk, c ∈ dkeys r) :
    dkeys (normRow mk r) = dkeys r := by
  rw [dkeys_normRow _ _ hnd]
  have : mk.filter (fun c => decide (c ∉ dkeys r)) = [] := by
    rw [List.filter_eq_nil]
    intro c hc
    simp [hsub c hc]
  rw [this, List.append_nil]

/-! ### Value-level facts about the coercions -/

/-- Results of a successful `float()` call or numeric coercion. -/
def isNumericVal (v : Val) : Bool :=
  match v with
  | Val.float _ => true
  | Val.nan => true
  | Val.inf _ => true
  | _ => false

theorem pyFloatOfString_numeric (s : String) (w : Val)
    (h : pyFloatOfString s = some w) : isNumericVal w = true := by
  rw [pyFloatOfString] at h
  split at h
  · exact Option.noConfusion h
  · simp only at h
    split at h
    · injection h with h'
      subst h'
      rfl
    · split at h
      · injection h with h'
        subst h'
        rfl
      · split at h
        · rw [Option.map_eq_some'] at h
          obtain ⟨q, _, hq⟩ := h
          subst hq
          rfl
        · split at h
          · injection h with h'
            subst h'
            rfl
          · exact Option.noConfusion h

theorem pyFloat_numeric (v w : Val) (h : pyFloat v = some w) :
    isNumericVal w = true := by
  cases v with
  | null => exact Option.noConfusion h
  | int n => injection h with h'; subst h'; rfl
  | float q => injection h with h'; subst h'; rfl
  | nan => injection h with h'; subst h'; rfl
  | inf b => injection h with h'; subst h'; rfl
  | str s => exact pyFloatOfString_numeric s w h

theorem pyFloat_no_int (v w : Val) (h : pyFloat v = some w) :
    (∃ q, w = Val.float q) ∨ w = Val.nan ∨ ∃ b, w = Val.inf b := by
  have hn := pyFloat_numeric v w h
  cases w with
  | float q => exact Or.inl ⟨q, rfl⟩
  | nan => exact Or.inr (Or.inl rfl)
  | inf b => exact Or.inr (Or.inr ⟨b, rfl⟩)
  | null => simp [isNumericVal] at hn
  | int n => simp [isNumericVal] at hn
  | str s => simp [isNumericVal] at hn

theorem pyFloat_of_numeric_finite (q : ℚ) : pyFloat (Val.float q) = some (Val.float q) := rfl

theorem coerceMeasure_shape (v : Val) :
    (∃ q, coerceMeasure v = Val.float q) ∨ ∃ b, coerceMeasure v = Val.inf b := by
  by_cases hnull : v = Val.null
  · subst hnull
    exact Or.inl ⟨0, rfl⟩
  · rw [coerceMeasure]
    simp only [hnull, if_false, ite_false]
    cases h : pyFloat v with
    | none => exact Or.inl ⟨0, by simp [h]⟩
    | some w =>
      rcases pyFloat_no_int v w h with ⟨q, hq⟩ | hnan | ⟨b, hb⟩
      · subst hq
        exact Or.inl ⟨q, by simp [h]⟩
      · subst hnan
        exact Or.inl ⟨0, by simp [h]⟩
      · subst hb
        exact Or.inr ⟨b, by simp [h]⟩

theorem coerceMeasure_not_missing (v : Val) :
    isNanLike (coerceMeasure v) = false ∧ pdIsNA (coerceMeasure v) = false := by
  rcases coerceMeasure_shape v with ⟨q, hq⟩ | ⟨b, hb⟩
  · simp [hq, isNanLike, pdIsNA]
  · simp [hb, isNanLike, pdIsNA]

theorem coerceMeasure_idem (v : Val) :
    coerceMeasure (coerceMeasure v) = coerceMeasure v := by
  rcases coerceMeasure_shape v with ⟨q, hq⟩ | ⟨b, hb⟩
  · rw [hq]
    rfl
  · rw [hb]
    rfl

theorem coerceCoord_idem (v : Val) :
    coerceCoord (coerceCoord v) = coerceCoord v := by
  cases h : pyFloat v with
  | none =>
    have hv : coerceCoord v = Val.float 0 := by rw [coerceCoord, h]; rfl
    rw [hv]
    rfl
  | some w =>
    have hv : coerceCoord v = w := by rw [coerceCoord, h]; rfl
    rw [hv]
    rcases pyFloat_no_int v w h with ⟨q, hq⟩ | hnan | ⟨b, hb⟩
    · subst hq
      rfl
    · subst hnan
      rfl
    · subst hb
      rfl

theorem pdIsNA_fillZero (v : Val) : pdIsNA (fillZero v) = false := by
  cases v <;> simp [fillZero, pdIsNA]

theorem toNumericCoerce_shape (v : Val) :
    toNumericCoerce v = Val.nan ∨ (∃ n, toNumericCoerce v = Val.int n) ∨
    (∃ q, toNumericCoerce v = Val.float q) ∨ ∃ b, toNumericCoerce v = Val.inf b := by
  cases v with
  | null => exact Or.inl rfl
  | int n => exact Or.inr (Or.inl ⟨n, rfl⟩)
  | float q => exact Or.inr (Or.inr (Or.inl ⟨q, rfl⟩))
  | nan => exact Or.inl rfl
  | inf b => exact Or.inr (Or.inr (Or.inr ⟨b, rfl⟩))
  | str s =>
    cases h : pyFloatOfString s with
    | none => exact Or.inl (by simp [toNumericCoerce, h])
    | some w =>
      rcases pyFloat_no_int (Val.str s) w (by simpa [pyFloat] using h) with ⟨q, hq⟩ | hnan | ⟨b, hb⟩
      · exact Or.inr (Or.inr (Or.inl ⟨q, by simp [toNumericCoerce, h, hq]⟩))
      · exact Or.inl (by simp [toNumericCoerce, h, hnan])
      · exact Or.inr (Or.inr (Or.inr ⟨b, by simp [toNumericCoerce, h, hb]⟩))

theorem toNumericCoerce_fill_idem (v : Val) :
    fillZero (toNumericCoerce (fillZero (toNumericCoerce v)))
      = fillZero (toNumericCoerce v) := by
  rcases toNumericCoerce_shape v with h | ⟨n, h⟩ | ⟨q, h⟩ | ⟨b, h⟩ <;>
    rw [h] <;> rfl

/-! ### Cell values through `_clean_dataframe` -/

theorem dget_dfCleanRow_noncoord (cols : List String) (r : Row) (c : String)
    (hlat : c ≠ "latitude") (hlon : c ≠ "longitude") :
    dget (dfCleanRow cols r) c
      = dget (rowMapColsO (fun o => fillZero (o.getD Val.nan)) (measurementColumns cols)
          (rowMapColsO (fun o => toNumericCoerce (o.getD Val.nan))
            (measurementColumns cols) r)) c := by
  rw [dfCleanRow]
  by_cases hlt : cols.contains "latitude" <;> by_cases hln : cols.contains "longitude" <;>
    simp only [hlt, hln, if_true, if_false, ite_true, ite_false, Bool.false_eq_true] <;>
      (try rw [dget_dset_ne _ _ _ _ (Ne.symm hlon)]) <;>
        (try rw [dget_dset_ne _ _ _ _ (Ne.symm hlat)]) <;> rfl

theorem dget_dfCleanRow_measure (cols : List String) (r : Row) (c : String)
    (hnd : cols.Nodup) (hc : c ∈ measurementColumns cols) :
    dget (dfCleanRow cols r) c
      = some (fillZero (toNumericCoerce (tblGet r c))) := by
  have hlat : c ≠ "latitude" :=
    fun h => (not_mem_measurementColumns cols c (h ▸ by simp [leadingKeys])) hc
  have hlon : c ≠ "longitude" :=
    fun h => (not_mem_measurementColumns cols c (h ▸ by simp [leadingKeys])) hc
  have hmnd := measurementColumns_nodup cols hnd
  rw [dget_dfCleanRow_noncoord _ _ _ hlat hlon,
    dget_rowMapColsO_mem _ _ _ _ hmnd hc, dget_rowMapColsO_mem _ _ _ _ hmnd hc]
  rfl

theorem dget_dfCleanRow_other (cols : List String) (r : Row) (c : String)
    (hc : c ∉ measurementColumns cols)
    (hlat : c ≠ "latitude") (hlon : c ≠ "longitude") :
    dget (dfCleanRow cols r) c = dget r c := by
  rw [dget_dfCleanRow_noncoord _ _ _ hlat hlon,
    dget_rowMapColsO_not_mem _ _ _ _ hc, dget_rowMapColsO_not_mem _ _ _ _ hc]

theorem dget_passes_lat (cols : List String) (r : Row) :
    dget (rowMapColsO (fun o => fillZero (o.getD Val.nan)) (measurementColumns cols)
      (rowMapColsO (fun o => toNumericCoerce (o.getD Val.nan))
        (measurementColumns cols) r)) "latitude" = dget r "latitude" := by
  have hnm : "latitude" ∉ measurementColumns cols :=
    not_mem_measurementColumns _ _ (by simp [leadingKeys])
  rw [dget_rowMapColsO_not_mem _ _ _ _ hnm, dget_rowMapColsO_not_mem _ _ _ _ hnm]

theorem dget_passes_lon (cols : List String) (r : Row) :
    dget (rowMapColsO (fun o => fillZero (o.getD Val.nan)) (measurementColumns cols)
      (rowMapColsO (fun o => toNumericCoerce (o.getD Val.nan))
        (measurementColumns cols) r)) "longitude" = dget r "longitude" := by
  have hnm : "longitude" ∉ measurementColumns cols :=
    not_mem_measurementColumns _ _ (by simp [leadingKeys])
  rw [dget_rowMapColsO_not_mem _ _ _ _ hnm, dget_rowMapColsO_not_mem _ _ _ _ hnm]

theorem dget_dfCleanRow_lat (cols : List String) (r : Row)
    (hin : "latitude" ∈ cols) :
    dget (dfCleanRow cols r) "latitude"
      = some (fillZero (toNumericCoerce (tblGet r "latitude"))) := by
  have hcb : cols.contains "latitude" = true := by simp [hin]
  have htbl : tblGet (rowMapColsO (fun o => fillZero (o.getD Val.nan)) (measurementColumns cols)
      (rowMapColsO (fun o => toNumericCoerce (o.getD Val.nan))
        (measurementColumns cols) r)) "latitude" = tblGet r "latitude" := by
    rw [tblGet, tblGet, dget_passes_lat]
  rw [dfCleanRow]
  by_cases hln : cols.contains "longitude" <;>
    simp only [hcb, hln, if_true, if_false, ite_true, ite_false, Bool.false_eq_true]
  · rw [dget_dset_ne _ _ _ _ (by decide), dget_dset_same, htbl]
  · rw [dget_dset_same, htbl]

theorem dget_dfCleanRow_lon (cols : List String) (r : Row)
    (hin : "longitude" ∈ cols) :
    dget (dfCleanRow cols r) "longitude"
      = some (fillZero (toNumericCoerce (tblGet r "longitude"))) := by
  have hcb : cols.contains "longitude" = true := by simp [hin]
  have htbl : tblGet (rowMapColsO (fun o => fillZero (o.getD Val.nan)) (measurementColumns cols)
      (rowMapColsO (fun o => toNumericCoerce (o.getD Val.nan))
        (measurementColumns cols) r)) "longitude" = tblGet r "longitude" := by
    rw [tblGet, tblGet, dget_passes_lon]
  rw [dfCleanRow]
  by_cases hlt : cols.contains "latitude" <;>
    simp only [hcb, hlt, if_true, if_false, ite_true, ite_false, Bool.false_eq_true]
  · rw [dget_dset_same, tblGet, dget_dset_ne _ _ _ _ (by decide), ← tblGet, htbl]
  · rw [dget_dset_same, htbl]

/-! ### Claim theorems: time axis, alignment, materializers -/

theorem usableLen_attained (timesLen : Nat) (series : List (List Val)) :
    usableLen timesLen series = timesLen ∨
      ∃ vs ∈ series, usableLen timesLen series = vs.length := by
  rw [usableLen]
  by_cases h : series.isEmpty
  · simp [h]
  · rw [if_neg h]
    rcases foldl_min_attained (series.map List.length) timesLen with hh | hh
    · exact Or.inl hh
    · obtain ⟨vs, hvs, hlen⟩ := List.mem_map.1 hh
      exact Or.inr ⟨vs, hvs, hlen.symm⟩

/-- C4: for every positive interval the time axis is exactly the ordered
arithmetic progression `start, start+interval, …` strictly below `end`;
concretely `range(0, 10, 3) = [0, 3, 6, 9]`. -/
theorem C4_time_axis (s e i : Int) (h : 0 < i) :
    (∃ L, pyRange s e i = Except.ok L ∧
      (∀ k : Nat, (k < L.length ↔ s + k * i < e)) ∧
      (∀ k : Nat, k < L.length → L.getD k 0 = s + k * i)) ∧
    pyRange 0 10 3 = Except.ok [0, 3, 6, 9] := by
  have hne : ¬ s = s + 1 := by omega
  have hcast : ((i.toNat : Int)) = i := Int.toNat_of_nonneg (le_of_lt h)
  have hst : 0 < i.toNat := by omega
  constructor
  · refine ⟨pyRangePos s e i.toNat, ?_, ?_, ?_⟩
    · rw [pyRange, if_neg (by omega), if_pos h]
    · intro k
      rw [pyRangePos_lt_iff s e i.toNat hst k, hcast]
    · intro k hk
      rw [pyRangePos_getD s e i.toNat hst k hk, hcast]
  · rfl

theorem C4_time_axis_witness :
    (0 : Int) < 3 ∧
    ((∃ L, pyRange 0 10 3 = Except.ok L ∧
      (∀ k : Nat, (k < L.length ↔ (0 : Int) + k * 3 < 10)) ∧
      (∀ k : Nat, k < L.length → L.getD k 0 = (0 : Int) + k * 3)) ∧
    pyRange 0 10 3 = Except.ok [0, 3, 6, 9]) :=
  ⟨by decide, C4_time_axis 0 10 3 (by decide)⟩

def exRespZero : Response :=
  { hourly := { Time := 0, TimeEnd := 10, Interval := 0, Variables := [] },
    Latitude := 0, Longitude := 0 }

def exRespNeg : Response :=
  { hourly := { Time := 0, TimeEnd := 10, Interval := -1, Variables := [] },
    Latitude := 0, Longitude := 0 }

/-- C6 counterexample: a descriptor with `interval = -1 ≤ 0` does NOT make
the builder fail — `to_rows` returns an empty row list with no error. -/
theorem C6_counterexample :
    exRespNeg.hourly.Interval ≤ 0 ∧ to_rows exRespNeg [] = Except.ok [] := by
  constructor
  · decide
  · rfl

/-- C6 amended: the builder fails (with the `range` step-zero `ValueError`,
surfaced to the caller) exactly for `interval = 0`; a negative interval
raises nothing and yields whatever `range` produces (empty when
`start ≤ end`). -/
theorem C6_amended (r : Response) (keys : List String) :
    (r.hourly.Interval = 0 →
      to_rows r keys = Except.error "range() arg 3 must not be zero") ∧
    (r.hourly.Interval < 0 → ∃ rows, to_rows r keys = Except.ok rows) := by
  constructor
  · intro h0
    unfold to_rows
    simp only [timeIndex]
    rw [pyRange, if_pos h0]
    rfl
  · intro hneg
    have hr : pyRange r.hourly.Time r.hourly.TimeEnd r.hourly.Interval
        = Except.ok (pyRangeNeg r.hourly.Time r.hourly.TimeEnd (-r.hourly.Interval).toNat) := by
      rw [pyRange, if_neg (by omega), if_neg (by omega)]
    unfold to_rows
    simp only [timeIndex]
    rw [hr]
    exact ⟨_, rfl⟩

theorem C6_amended_witness :
    to_rows exRespZero [] = Except.error "range() arg 3 must not be zero" ∧
    ∃ rows, to_rows exRespNeg [] = Except.ok rows :=
  ⟨(C6_amended exRespZero []).1 rfl, (C6_amended exRespNeg []).2 (by decide)⟩

/-- C5: row and table materialization use the usable length
`m = min(T, L_0, …)` (with `m = T` for an empty variable list), truncating
silently — never erroring on a mismatch — with `m = 0` giving an empty
result, and taking the first `m` timestamps and series values unchanged. -/
theorem C5_alignment (r : Response) (keys : List String)
    (hI : 0 < r.hourly.Interval)
    (hse : r.hourly.Time ≤ r.hourly.TimeEnd)
    (hk : keys.length ≤ r.hourly.Variables.length)
    (hnd : keys.Nodup) (hdisj : ∀ k ∈ keys, k ∉ leadingKeys) :
    ∃ rows tbl,
      to_rows r keys = Except.ok rows ∧
      to_dataframe r keys = Except.ok tbl ∧
      rows.length = usableLen (timesOf r).length (seriesOf r keys) ∧
      tbl.rows.length = rows.length ∧
      (keys = [] → rows.length = (timesOf r).length) ∧
      rows.length ≤ (timesOf r).length ∧
      (∀ vs ∈ seriesOf r keys, rows.length ≤ vs.length) ∧
      (rows.length = (timesOf r).length ∨
        ∃ vs ∈ seriesOf r keys, rows.length = vs.length) ∧
      ((∃ vs ∈ seriesOf r keys, vs.length = 0) → rows = []) ∧
      (∀ i, i < rows.length →
        dget (rows.getD i []) "date" = some (Val.int ((timesOf r).getD i 0))) ∧
      (∀ i, i < rows.length → ∀ j, j < keys.length →
        dget (rows.getD i []) (keys.getD j "")
          = some (((seriesOf r keys).getD j []).getD i Val.nan)) := by
  have hts := to_rows_eq r keys hI
  have hlen_series : (seriesOf r keys).length = keys.length := by
    rw [seriesOf, List.length_take]
    exact Nat.min_eq_left hk
  have hfst : (keys.zip (seriesOf r keys)).map Prod.fst = keys :=
    List.map_fst_zip _ _ (le_of_eq hlen_series.symm)
  have hndk : ((keys.zip (seriesOf r keys)).map Prod.fst).Nodup := by
    rw [hfst]; exact hnd
  refine ⟨_, _, hts, to_dataframe_eq r keys hI hk hnd hdisj, ?_, ?_, ?_, ?_, ?_, ?_, ?_, ?_, ?_⟩
  · simp
  · simp
  · intro hkeys
    subst hkeys
    simp [usableLen, seriesOf]
  · simp [usableLen_le_times]
  · intro vs hvs
    simpa using usableLen_le_series (timesOf r).length _ vs hvs
  · simp only [List.length_map, List.length_range]
    exact usableLen_attained _ _
  · intro ⟨vs, hvs, hvs0⟩
    have h1 : usableLen (timesOf r).length (seriesOf r keys) ≤ 0 :=
      hvs0 ▸ usableLen_le_series _ _ vs hvs
    simp only [List.map_eq_nil_iff, List.range_eq_nil]
    omega
  · intro i hi
    simp only [List.length_map, List.length_range] at hi
    have hgd : ((List.range (usableLen (timesOf r).length (seriesOf r keys))).map
        (rowAt r keys)).getD i [] = rowAt r keys i := by
      rw [getD_eq_getElem _ _ _ (by simpa using hi)]
      simp
    rw [hgd, rowAt, dget_addVarEntries_not_mem _ _ _ _ (by
      rw [hfst]
      exact fun h => hdisj _ h (by simp [leadingKeys]))]
    simp [baseRow, dget]
  · intro i hi j hj
    simp only [List.length_map, List.length_range] at hi
    have hgd : ((List.range (usableLen (timesOf r).length (seriesOf r keys))).map
        (rowAt r keys)).getD i [] = rowAt r keys i := by
      rw [getD_eq_getElem _ _ _ (by simpa using hi)]
      simp
    have hjz : j < (keys.zip (seriesOf r keys)).length := by
      rw [List.length_zip, hlen_series]
      omega
    have hzip : (keys.zip (seriesOf r keys))[j]
        = (keys.getD j "", (seriesOf r keys).getD j []) := by
      rw [List.getElem_zip]
      rw [getD_eq_getElem _ _ _ hj, getD_eq_getElem _ _ _ (by omega : j < (seriesOf r keys).length)]
    have hmem : (keys.getD j "", (seriesOf r keys).getD j []) ∈ keys.zip (seriesOf r keys) := by
      rw [← hzip]
      exact List.getElem_mem _
    rw [hgd, rowAt, dget_addVarEntries_mem _ _ _ _ _ hndk hmem]

/-- The spec's end-to-end example response: descriptor (0, 4, 1), one
variable with values `[10.0, NaN, 12.0, 13.0]`, coordinates (47, 28.8). -/
def exResp : Response :=
  { hourly := { Time := 0, TimeEnd := 4, Interval := 1,
                Variables := [[Val.float 10, Val.nan, Val.float 12, Val.float 13]] },
    Latitude := 47, Longitude := (28.8 : ℚ) }

theorem C5_alignment_witness :
    ∃ rows tbl,
      to_rows exResp ["temperature"] = Except.ok rows ∧
      to_dataframe exResp ["temperature"] = Except.ok tbl ∧
      rows.length = usableLen (timesOf exResp).length (seriesOf exResp ["temperature"]) ∧
      tbl.rows.length = rows.length ∧
      ((["temperature"] : List String) = [] → rows.length = (timesOf exResp).length) ∧
      rows.length ≤ (timesOf exResp).length ∧
      (∀ vs ∈ seriesOf exResp ["temperature"], rows.length ≤ vs.length) ∧
      (rows.length = (timesOf exResp).length ∨
        ∃ vs ∈ seriesOf exResp ["temperature"], rows.length = vs.length) ∧
      ((∃ vs ∈ seriesOf exResp ["temperature"], vs.length = 0) → rows = []) ∧
      (∀ i, i < rows.length →
        dget (rows.getD i []) "date" = some (Val.int ((timesOf exResp).getD i 0))) ∧
      (∀ i, i < rows.length → ∀ j, j < (["temperature"] : List String).length →
        dget (rows.getD i []) ((["temperature"] : List String).getD j "")
          = some (((seriesOf exResp ["temperature"]).getD j []).getD i Val.nan)) :=
  C5_alignment exResp ["temperature"] (by decide) (by decide) (by decide)
    (by decide) (by decide)

/-- C7: the Row Materializer yields one record per aligned index, with the
raw epoch timestamp as `date`, an absent (`None`) `hour`, the response's
fixed coordinates on every record, and one entry per variable name holding
the aligned value. -/
theorem C7_row_materializer (r : Response) (keys : List String)
    (hI : 0 < r.hourly.Interval)
    (hk : keys.length ≤ r.hourly.Variables.length)
    (hnd : keys.Nodup) (hdisj : ∀ k ∈ keys, k ∉ leadingKeys) :
    ∃ rows, to_rows r keys = Except.ok rows ∧
      rows.length = usableLen (timesOf r).length (seriesOf r keys) ∧
      ∀ i, i < rows.length →
        dget (rows.getD i []) "date"
            = some (Val.int (r.hourly.Time + i * r.hourly.Interval)) ∧
        dget (rows.getD i []) "hour" = some Val.null ∧
        dget (rows.getD i []) "latitude" = some (Val.float r.Latitude) ∧
        dget (rows.getD i []) "longitude" = some (Val.float r.Longitude) ∧
        ∀ j, j < keys.length →
          dget (rows.getD i []) (keys.getD j "")
            = some (((seriesOf r keys).getD j []).getD i Val.nan) := by
  have hlen_series : (seriesOf r keys).length = keys.length := by
    rw [seriesOf, List.length_take]
    exact Nat.min_eq_left hk
  have hfst : (keys.zip (seriesOf r keys)).map Prod.fst = keys :=
    List.map_fst_zip _ _ (le_of_eq hlen_series.symm)
  have hndk : ((keys.zip (seriesOf r keys)).map Prod.fst).Nodup := by
    rw [hfst]; exact hnd
  have hnotmem : ∀ c : String, c ∈ leadingKeys →
      c ∉ (keys.zip (seriesOf r keys)).map Prod.fst := by
    intro c hc hmem
    exact hdisj c (hfst ▸ hmem) hc
  refine ⟨_, to_rows_eq r keys hI, by simp, ?_⟩
  intro i hi
  simp only [List.length_map, List.length_range] at hi
  have hgd : ((List.range (usableLen (timesOf r).length (seriesOf r keys))).map
      (rowAt r keys)).getD i [] = rowAt r keys i := by
    rw [getD_eq_getElem _ _ _ (by simpa using hi)]
    simp
  have hiT : i < (timesOf r).length := lt_of_lt_of_le hi (usableLen_le_times _ _)
  have hcast : ((r.hourly.Interval.toNat : Int)) = r.hourly.Interval :=
    Int.toNat_of_nonneg (le_of_lt hI)
  have hti : (timesOf r).getD i 0 = r.hourly.Time + i * r.hourly.Interval := by
    rw [timesOf, pyRangePos_getD _ _ _ (by omega) i (by simpa [timesOf] using hiT), hcast]
  refine ⟨?_, ?_, ?_, ?_, ?_⟩
  · rw [hgd, rowAt, dget_addVarEntries_not_mem _ _ _ _
      (hnotmem "date" (by simp [leadingKeys])), hti]
    simp [baseRow, dget]
  · rw [hgd, rowAt, dget_addVarEntries_not_mem _ _ _ _
      (hnotmem "hour" (by simp [leadingKeys]))]
    simp [baseRow, dget]
  · rw [hgd, rowAt, dget_addVarEntries_not_mem _ _ _ _
      (hnotmem "latitude" (by simp [leadingKeys]))]
    simp [baseRow, dget]
  · rw [hgd, rowAt, dget_addVarEntries_not_mem _ _ _ _
      (hnotmem "longitude" (by simp [leadingKeys]))]
    simp [baseRow, dget]
  · intro j hj
    have hjz : j < (keys.zip (seriesOf r keys)).length := by
      rw [List.length_zip, hlen_series]
      omega
    have hzip : (keys.zip (seriesOf r keys))[j]
        = (keys.getD j "", (seriesOf r keys).getD j []) := by
      rw [List.getElem_zip]
      rw [getD_eq_getElem _ _ _ hj,
        getD_eq_getElem _ _ _ (by omega : j < (seriesOf r keys).length)]
    have hmem : (keys.getD j "", (seriesOf r keys).getD j []) ∈ keys.zip (seriesOf r keys) := by
      rw [← hzip]
      exact List.getElem_mem _
    rw [hgd, rowAt, dget_addVarEntries_mem _ _ _ _ _ hndk hmem]

theorem C7_row_materializer_witness :
    ∃ rows, to_rows exResp ["temperature"] = Except.ok rows ∧
      rows.length = usableLen (timesOf exResp).length (seriesOf exResp ["temperature"]) ∧
      ∀ i, i < rows.length →
        dget (rows.getD i []) "date"
            = some (Val.int (exResp.hourly.Time + i * exResp.hourly.Interval)) ∧
        dget (rows.getD i []) "hour" = some Val.null ∧
        dget (rows.getD i []) "latitude" = some (Val.float exResp.Latitude) ∧
        dget (rows.getD i []) "longitude" = some (Val.float exResp.Longitude) ∧
        ∀ j, j < (["temperature"] : List String).length →
          dget (rows.getD i []) ((["temperature"] : List String).getD j "")
            = some (((seriesOf exResp ["temperature"]).getD j []).getD i Val.nan) :=
  C7_row_materializer exResp ["temperature"] (by decide) (by decide)
    (by decide) (by decide)

/-- C8: with the tabular engine available and under the data-model
invariants, the table materialization is exactly the row materialization
reshaped: same row count and per-row content, except that `date` becomes
`YYYY-MM-DD` and `hour` becomes `HH:MM`, both derived from the raw epoch
timestamp interpreted as UTC (the `tableView` correspondence). -/
theorem C8_table_equiv (r : Response) (keys : List String)
    (hI : 0 < r.hourly.Interval)
    (hse : r.hourly.Time ≤ r.hourly.TimeEnd)
    (hk : keys.length ≤ r.hourly.Variables.length)
    (hnd : keys.Nodup) (hdisj : ∀ k ∈ keys, k ∉ leadingKeys) :
    ∃ rows, to_rows r keys = Except.ok rows ∧
      to_dataframe r keys = Except.ok
        { cols := ["date", "hour", "latitude", "longitude"] ++ keys,
          rows := rows.map (tableView keys) } :=
  ⟨_, to_rows_eq r keys hI, to_dataframe_eq r keys hI hk hnd hdisj⟩

theorem C8_table_equiv_witness :
    ∃ rows, to_rows exResp ["temperature"] = Except.ok rows ∧
      to_dataframe exResp ["temperature"] = Except.ok
        { cols := ["date", "hour", "latitude", "longitude"] ++ ["temperature"],
          rows := rows.map (tableView ["temperature"]) } :=
  C8_table_equiv exResp ["temperature"] (by decide) (by decide) (by decide)
    (by decide) (by decide)

/-! ### Claim theorems: the Data Cleaner -/

theorem coerceMeasure_zero (v : Val)
    (h : isNanLike v = true ∨ pyFloat v = Option.none ∨ pyFloat v = some Val.nan) :
    coerceMeasure v = Val.float 0 := by
  by_cases hnull : v = Val.null
  · subst hnull
    rfl
  · rw [coerceMeasure]
    simp only [hnull, ite_false, if_false]
    rcases h with h | h | h
    · have hv : v = Val.nan := by
        cases v <;> simp_all [isNanLike]
      subst hv
      rfl
    · simp [h]
    · simp [h]

theorem fillZero_toNumeric_zero (v : Val)
    (h : pdIsNA v = true ∨ toNumericCoerce v = Val.nan) :
    fillZero (toNumericCoerce v) = Val.float 0 := by
  rcases h with h | h
  · have hv : v = Val.null ∨ v = Val.nan := by
      cases v <;> simp_all [pdIsNA]
    rcases hv with hv | hv <;> (subst hv; rfl)
  · rw [h]
    rfl

theorem lat_not_mem_mc (cols : List String) :
    "latitude" ∉ measurementColumns cols :=
  not_mem_measurementColumns _ _ (by simp [leadingKeys])

theorem lon_not_mem_mc (cols : List String) :
    "longitude" ∉ measurementColumns cols :=
  not_mem_measurementColumns _ _ (by simp [leadingKeys])

/-- C1 (amended): with measurement keys read off the first record's keys
(for rows) or the columns (for tables), a row whose raw measurement values
are all missing is discarded before any coercion, and every surviving
row's measurement cells are float-coerced with 0 replacing
missing/unparseable values — except that a table with no measurement
columns is returned unchanged. -/
theorem C1_amended :
    (∀ (r0 : Row) (rest : List Row), (dkeys r0).Nodup →
      (∀ r ∈ r0 :: rest,
        allMeasuresNan (measurementColumns (dkeys r0)) r = true →
          r ∉ cleanRows (r0 :: rest)) ∧
      (∀ r : Row, ∀ k ∈ measurementColumns (dkeys r0),
        dget (normRow (measurementColumns (dkeys r0)) r) k
          = some (coerceMeasure (pyGet r k)) ∧
        isNumericVal (coerceMeasure (pyGet r k)) = true ∧
        isNanLike (coerceMeasure (pyGet r k)) = false ∧
        ((isNanLike (pyGet r k) = true ∨ pyFloat (pyGet r k) = Option.none ∨
            pyFloat (pyGet r k) = some Val.nan) →
          coerceMeasure (pyGet r k) = Val.float 0))) ∧
    (∀ df : Table, df.cols.Nodup →
      (measurementColumns df.cols).isEmpty = false →
      (∀ row ∈ df.rows,
        (∀ c ∈ measurementColumns df.cols, pdIsNA (tblGet row c) = true) →
          row ∉ (cleanDataframe df).rows) ∧
      (∀ row : Row, ∀ c ∈ measurementColumns df.cols,
        dget (dfCleanRow df.cols row) c
          = some (fillZero (toNumericCoerce (tblGet row c))) ∧
        pdIsNA (fillZero (toNumericCoerce (tblGet row c))) = false ∧
        ((pdIsNA (tblGet row c) = true ∨ toNumericCoerce (tblGet row c) = Val.nan) →
          fillZero (toNumericCoerce (tblGet row c)) = Val.float 0))) ∧
    (∀ df : Table, (measurementColumns df.cols).isEmpty = true →
      cleanDataframe df = df) := by
  refine ⟨?_, ?_, ?_⟩
  · intro r0 rest hnd
    have hmknd : (measurementColumns (dkeys r0)).Nodup :=
      measurementColumns_nodup _ hnd
    constructor
    · intro r hr hall hmem
      rw [cleanRows_eq] at hmem
      obtain ⟨r', hr', hr'eq⟩ := List.mem_map.1 hmem
      rw [List.mem_filter] at hr'
      cases hmc : measurementColumns (dkeys r0) with
      | nil =>
        rw [hmc] at hr'
        simp [allMeasuresNan] at hr'
      | cons c0 mcrest =>
        have hc0 : c0 ∈ measurementColumns (dkeys r0) := by
          rw [hmc]
          exact List.mem_cons_self _ _
        have hc0lat : c0 ≠ "latitude" :=
          fun h => lat_not_mem_mc (dkeys r0) (h ▸ hc0)
        have hc0lon : c0 ≠ "longitude" :=
          fun h => lon_not_mem_mc (dkeys r0) (h ▸ hc0)
        have hcell : dget r c0 = some (coerceMeasure (pyGet r' c0)) := by
          rw [← hr'eq]
          exact dget_normRow_measure _ _ _ hmknd hc0 hc0lat hc0lon
        have hnan : isNanLike (pyGet r c0) = true := by
          have := List.all_eq_true.1 hall c0 hc0
          simpa using this
        rw [pyGet, hcell] at hnan
        simp only [Option.getD_some] at hnan
        rw [(coerceMeasure_not_missing (pyGet r' c0)).1] at hnan
        exact Bool.noConfusion hnan
    · intro r k hk
      have hklat : k ≠ "latitude" :=
        fun h => lat_not_mem_mc (dkeys r0) (h ▸ hk)
      have hklon : k ≠ "longitude" :=
        fun h => lon_not_mem_mc (dkeys r0) (h ▸ hk)
      refine ⟨dget_normRow_measure _ _ _ hmknd hk hklat hklon, ?_, ?_, ?_⟩
      · rcases coerceMeasure_shape (pyGet r k) with ⟨q, hq⟩ | ⟨b, hb⟩
        · simp [hq, isNumericVal]
        · simp [hb, isNumericVal]
      · exact (coerceMeasure_not_missing _).1
      · exact coerceMeasure_zero _
  · intro df hnd hne
    constructor
    · intro row hrow hall hmem
      rw [cleanDataframe_eq df hne] at hmem
      simp only at hmem
      obtain ⟨r', hr', hr'eq⟩ := List.mem_map.1 hmem
      cases hmc : measurementColumns df.cols with
      | nil =>
        rw [hmc] at hne
        simp at hne
      | cons c0 mcrest =>
        have hc0 : c0 ∈ measurementColumns df.cols := by
          rw [hmc]
          exact List.mem_cons_self _ _
        have hcell : dget row c0
            = some (fillZero (toNumericCoerce (tblGet r' c0))) := by
          rw [← hr'eq]
          exact dget_dfCleanRow_measure _ _ _ hnd hc0
        have hna := hall c0 hc0
        rw [tblGet, hcell] at hna
        simp only [Option.getD_some] at hna
        rw [pdIsNA_fillZero] at hna
        exact Bool.noConfusion hna
    · intro row c hc
      refine ⟨dget_dfCleanRow_measure _ _ _ hnd hc, pdIsNA_fillZero _, ?_⟩
      exact fillZero_toNumeric_zero _
  · intro df hempty
    rw [cleanDataframe, if_pos hempty]

def exC1Rows : List Row :=
  [[("a", Val.float 1)], [("a", Val.float 2), ("b", Val.str "x")]]

/-- C1 counterexample (claim as stated is false): cleaning a row sequence
whose second record carries a measurement field `b` unknown to the first
record leaves that surviving record with the unconverted string value —
not every measurement value of a surviving row is float-coerced. -/
theorem C1_counterexample :
    "b" ∉ leadingKeys ∧
    ((cleanRows exC1Rows).getD 1 []) ∈ cleanRows exC1Rows ∧
    dget ((cleanRows exC1Rows).getD 1 []) "b" = some (Val.str "x") ∧
    isNumericVal (Val.str "x") = false := by decide

def exDfC1 : Table :=
  { cols := ["date", "t"],
    rows := [[("date", Val.int 0), ("t", Val.null)],
             [("date", Val.int 1), ("t", Val.str "5")]] }

def exDfMeta : Table :=
  { cols := ["date"], rows := [[("date", Val.int 1)]] }

theorem C1_amended_witness :
    (([("a", Val.nan)] : Row) ∉ cleanRows [[("a", Val.nan)], [("a", Val.float 3)]]) ∧
    (dget (normRow (measurementColumns (dkeys ([("a", Val.nan)] : Row)))
        [("a", Val.str "zz")]) "a"
      = some (coerceMeasure (pyGet ([("a", Val.str "zz")] : Row) "a"))) ∧
    (([("date", Val.int 0), ("t", Val.null)] : Row) ∉ (cleanDataframe exDfC1).rows) ∧
    (cleanDataframe exDfMeta = exDfMeta) :=
  ⟨(C1_amended.1 [("a", Val.nan)] [[("a", Val.float 3)]] (by decide)).1
      [("a", Val.nan)] (by decide) (by decide),
   ((C1_amended.1 [("a", Val.nan)] [[("a", Val.float 3)]] (by decide)).2
      [("a", Val.str "zz")] "a" (by decide)).1,
   (C1_amended.2.1 exDfC1 (by decide) (by decide)).1
      [("date", Val.int 0), ("t", Val.null)] (by decide) (by decide),
   C1_amended.2.2 exDfMeta (by decide)⟩

theorem fillZero_of_not_na (v : Val) (h : pdIsNA v = false) : fillZero v = v := by
  rw [fillZero, h]
  rfl

theorem toNumericCoerce_fillZero_fix (v : Val) :
    toNumericCoerce (fillZero (toNumericCoerce v)) = fillZero (toNumericCoerce v) := by
  rcases toNumericCoerce_shape v with h | ⟨n, h⟩ | ⟨q, h⟩ | ⟨b, h⟩ <;> rw [h] <;> rfl

/-- A second pass of `_clean_rows` row normalization changes nothing. -/
theorem normRow_idem (mk : List String) (r : Row) (hnd : mk.Nodup)
    (hlat : "latitude" ∉ mk) (hlon : "longitude" ∉ mk) :
    normRow mk (normRow mk r) = normRow mk r := by
  have h2 : normMeasures mk (normRow mk r) = normRow mk r := by
    rw [normMeasures_eq_rowMapColsO]
    apply rowMapColsO_id
    intro k hk
    have hklat : k ≠ "latitude" := fun h => hlat (h ▸ hk)
    have hklon : k ≠ "longitude" := fun h => hlon (h ▸ hk)
    rw [dget_normRow_measure _ _ _ hnd hk hklat hklon]
    exact congrArg some (coerceMeasure_idem (pyGet r k)).symm
  have hlat' : normCoord1 (normRow mk r) "latitude" = normRow mk r := by
    rw [normCoord1]
    cases hg : dget (normRow mk r) "latitude" with
    | none => rfl
    | some w =>
      have hmap : (dget r "latitude").map coerceCoord = some w := by
        rw [← dget_normRow_lat mk r hlat]
        exact hg
      obtain ⟨v, hv, hwv⟩ := Option.map_eq_some'.1 hmap
      show dset (normRow mk r) "latitude" (coerceCoord w) = normRow mk r
      rw [← hwv, coerceCoord_idem, hwv]
      exact dset_self _ _ _ hg
  have hlon' : normCoord1 (normRow mk r) "longitude" = normRow mk r := by
    rw [normCoord1]
    cases hg : dget (normRow mk r) "longitude" with
    | none => rfl
    | some w =>
      have hmap : (dget r "longitude").map coerceCoord = some w := by
        rw [← dget_normRow_lon mk r hlon hlat]
        exact hg
      obtain ⟨v, hv, hwv⟩ := Option.map_eq_some'.1 hmap
      show dset (normRow mk r) "longitude" (coerceCoord w) = normRow mk r
      rw [← hwv, coerceCoord_idem, hwv]
      exact dset_self _ _ _ hg
  calc normRow mk (normRow mk r)
      = normCoord1 (normCoord1 (normMeasures mk (normRow mk r)) "latitude") "longitude" := rfl
    _ = normCoord1 (normCoord1 (normRow mk r) "latitude") "longitude" := by rw [h2]
    _ = normCoord1 (normRow mk r) "longitude" := by rw [hlat']
    _ = normRow mk r := hlon'

/-- A second pass of `_clean_dataframe` row treatment changes nothing. -/
theorem dfCleanRow_idem (cols : List String) (r : Row) (hnd : cols.Nodup) :
    dfCleanRow cols (dfCleanRow cols r) = dfCleanRow cols r := by
  have hmnd := measurementColumns_nodup cols hnd
  have hgN : rowMapColsO (fun o => toNumericCoerce (o.getD Val.nan)) (measurementColumns cols)
      (dfCleanRow cols r) = dfCleanRow cols r := by
    apply rowMapColsO_id
    intro c hc
    rw [dget_dfCleanRow_measure _ _ _ hnd hc]
    exact congrArg some (toNumericCoerce_fillZero_fix (tblGet r c)).symm
  have hgF : rowMapColsO (fun o => fillZero (o.getD Val.nan)) (measurementColumns cols)
      (dfCleanRow cols r) = dfCleanRow cols r := by
    apply rowMapColsO_id
    intro c hc
    rw [dget_dfCleanRow_measure _ _ _ hnd hc]
    exact congrArg some (fillZero_of_not_na _ (pdIsNA_fillZero (toNumericCoerce (tblGet r c)))).symm
  have hsetlat : cols.contains "latitude" = true →
      dset (dfCleanRow cols r) "latitude"
        (fillZero (toNumericCoerce (tblGet (dfCleanRow cols r) "latitude")))
      = dfCleanRow cols r := by
    intro hin
    have hmem : "latitude" ∈ cols := by simpa using hin
    have hcell := dget_dfCleanRow_lat cols r hmem
    rw [tblGet, hcell, Option.getD_some, toNumericCoerce_fill_idem]
    exact dset_self _ _ _ hcell
  have hsetlon : cols.contains "longitude" = true →
      dset (dfCleanRow cols r) "longitude"
        (fillZero (toNumericCoerce (tblGet (dfCleanRow cols r) "longitude")))
      = dfCleanRow cols r := by
    intro hin
    have hmem : "longitude" ∈ cols := by simpa using hin
    have hcell := dget_dfCleanRow_lon cols r hmem
    rw [tblGet, hcell, Option.getD_some, toNumericCoerce_fill_idem]
    exact dset_self _ _ _ hcell
  show (let r2 := rowMapColsO (fun o => fillZero (o.getD Val.nan)) (measurementColumns cols)
          (rowMapColsO (fun o => toNumericCoerce (o.getD Val.nan)) (measurementColumns cols)
            (dfCleanRow cols r))
        let r3 := if cols.contains "latitude"
                  then dset r2 "latitude" (fillZero (toNumericCoerce (tblGet r2 "latitude")))
                  else r2
        if cols.contains "longitude"
        then dset r3 "longitude" (fillZero (toNumericCoerce (tblGet r3 "longitude")))
        else r3) = dfCleanRow cols r
  simp only [hgN, hgF]
  by_cases hlt : cols.contains "latitude" <;> by_cases hln : cols.contains "longitude" <;>
    simp only [hlt, hln, if_true, if_false, ite_true, ite_false, Bool.false_eq_true]
  · rw [hsetlat hlt, hsetlon hln]
  · rw [hsetlat hlt]
  · rw [hsetlon hln]

theorem map_eq_self_of_mem {α : Type} (f : α → α) (l : List α)
    (h : ∀ x ∈ l, f x = x) : l.map f = l := by
  induction l with
  | nil => rfl
  | cons a l ih =>
    rw [List.map_cons, h a (List.mem_cons_self _ _),
      ih (fun x hx => h x (List.mem_cons_of_mem _ hx))]

def exC2Rows : List Row :=
  [[("a", Val.null)], [("a", Val.float 3), ("b", Val.str "x")]]

/-- C2 counterexample (claim as stated is false): for a row sequence whose
records have different key sets, a second cleaning pass coerces a key that
the first pass left untouched, so `clean(clean(X)) ≠ clean(X)`. -/
theorem C2_counterexample :
    cleanRows (cleanRows exC2Rows) ≠ cleanRows exC2Rows := by decide

/-- C2 (amended): cleaning is idempotent on every table with distinct
column names, on every row sequence whose records all share the first
record's keys, and on the empty row sequence. -/
theorem C2_amended :
    (∀ df : Table, df.cols.Nodup →
      cleanDataframe (cleanDataframe df) = cleanDataframe df) ∧
    (∀ (r0 : Row) (rest : List Row), (dkeys r0).Nodup →
      (∀ r ∈ r0 :: rest, dkeys r = dkeys r0) →
      cleanRows (cleanRows (r0 :: rest)) = cleanRows (r0 :: rest)) ∧
    cleanRows (cleanRows []) = cleanRows [] := by
  refine ⟨?_, ?_, rfl⟩
  · intro df hnd
    by_cases hempty : (measurementColumns df.cols).isEmpty = true
    · have h : cleanDataframe df = df := by rw [cleanDataframe, if_pos hempty]
      rw [h, h]
    · have hne : (measurementColumns df.cols).isEmpty = false :=
        Bool.eq_false_iff.2 hempty
      have h1 := cleanDataframe_eq df hne
      have hcols1 : (cleanDataframe df).cols = df.cols := by rw [h1]
      have hne1 : (measurementColumns (cleanDataframe df).cols).isEmpty = false := by
        rw [hcols1]
        exact hne
      have h2 := cleanDataframe_eq (cleanDataframe df) hne1
      rw [h2]
      simp only [hcols1]
      have hmem_shape : ∀ r1 ∈ (cleanDataframe df).rows,
          ∃ r', r1 = dfCleanRow df.cols r' := by
        intro r1 hr1
        rw [h1] at hr1
        simp only at hr1
        obtain ⟨r', _, hr'eq⟩ := List.mem_map.1 hr1
        exact ⟨r', hr'eq.symm⟩
      have hfilter : (cleanDataframe df).rows.filter (fun r =>
          !((measurementColumns df.cols).all (fun c => pdIsNA (tblGet r c))))
          = (cleanDataframe df).rows := by
        rw [List.filter_eq_self]
        intro r1 hr1
        obtain ⟨r', hr'eq⟩ := hmem_shape r1 hr1
        cases hmc : measurementColumns df.cols with
        | nil =>
          rw [hmc] at hne
          simp at hne
        | cons c0 mcrest =>
          have hc0 : c0 ∈ measurementColumns df.cols := by
            rw [hmc]
            exact List.mem_cons_self _ _
          have hcell : dget r1 c0
              = some (fillZero (toNumericCoerce (tblGet r' c0))) := by
            rw [hr'eq]
            exact dget_dfCleanRow_measure _ _ _ hnd hc0
          have hcellna : pdIsNA (tblGet r1 c0) = false := by
            rw [tblGet, hcell, Option.getD_some]
            exact pdIsNA_fillZero _
          cases hall : (c0 :: mcrest).all (fun c => pdIsNA (tblGet r1 c)) with
          | false => simp [hall]
          | true =>
            have := List.all_eq_true.1 hall c0 (List.mem_cons_self _ _)
            rw [hcellna] at this
            exact Bool.noConfusion this
      rw [hfilter]
      have hmapid : (cleanDataframe df).rows.map (dfCleanRow df.cols)
          = (cleanDataframe df).rows := by
        apply map_eq_self_of_mem
        intro r1 hr1
        obtain ⟨r', hr'eq⟩ := hmem_shape r1 hr1
        rw [hr'eq]
        exact dfCleanRow_idem df.cols r' hnd
      rw [hmapid]
      rw [h1]
  · intro r0 rest hnd hkeys
    have hmknd : (measurementColumns (dkeys r0)).Nodup :=
      measurementColumns_nodup _ hnd
    have hlatmk := lat_not_mem_mc (dkeys r0)
    have hlonmk := lon_not_mem_mc (dkeys r0)
    by_cases hmk : measurementColumns (dkeys r0) = []
    · have hall : cleanRows (r0 :: rest) = [] := by
        rw [cleanRows_eq]
        have : (r0 :: rest).filter (fun r =>
            !allMeasuresNan (measurementColumns (dkeys r0)) r) = [] := by
          rw [List.filter_eq_nil]
          intro r _
          simp [hmk, allMeasuresNan]
        rw [this]
        rfl
      rw [hall]
      rfl
    · have hmem_shape : ∀ y ∈ cleanRows (r0 :: rest),
          ∃ ry, dkeys ry = dkeys r0 ∧ y = normRow (measurementColumns (dkeys r0)) ry := by
        intro y hy
        rw [cleanRows_eq] at hy
        obtain ⟨ry, hry, hryeq⟩ := List.mem_map.1 hy
        rw [List.mem_filter] at hry
        exact ⟨ry, hkeys ry hry.1, hryeq.symm⟩
      cases hcl : cleanRows (r0 :: rest) with
      | nil => rfl
      | cons c0 crest =>
        obtain ⟨r', hr'keys, hc0eq⟩ := hmem_shape c0 (hcl ▸ List.mem_cons_self _ _)
        have hkeysc0 : dkeys c0 = dkeys r0 := by
          rw [hc0eq, dkeys_normRow_of_subset _ _ hmknd
            (fun c hc => hr'keys ▸ measurementColumns_subset _ hc), hr'keys]
        rw [← hcl, hcl, cleanRows_eq c0 crest, hkeysc0]
        have hpred : ∀ y ∈ c0 :: crest,
            (!allMeasuresNan (measurementColumns (dkeys r0)) y) = true := by
          intro y hy
          obtain ⟨ry, _, hyeq⟩ := hmem_shape y (hcl ▸ hy)
          cases hmc : measurementColumns (dkeys r0) with
          | nil => exact absurd hmc hmk
          | cons k0 mkrest =>
            have hk0 : k0 ∈ measurementColumns (dkeys r0) := by
              rw [hmc]
              exact List.mem_cons_self _ _
            have hk0lat : k0 ≠ "latitude" := fun h => hlatmk (h ▸ hk0)
            have hk0lon : k0 ≠ "longitude" := fun h => hlonmk (h ▸ hk0)
            have hcell : dget y k0
                = some (coerceMeasure (pyGet ry k0)) := by
              rw [hyeq]
              exact dget_normRow_measure _ _ _ hmknd hk0 hk0lat hk0lon
            have hnotnan : isNanLike (pyGet y k0) = false := by
              rw [pyGet, hcell, Option.getD_some]
              exact (coerceMeasure_not_missing _).1
            cases hall : allMeasuresNan (k0 :: mkrest) y with
            | false => simp [hall]
            | true =>
              have : isNanLike (pyGet y k0) = true :=
                List.all_eq_true.1 hall k0 (List.mem_cons_self _ _)
              rw [hnotnan] at this
              exact Bool.noConfusion this
        rw [List.filter_eq_self.2 hpred]
        apply map_eq_self_of_mem
        intro y hy
        obtain ⟨ry, _, hyeq⟩ := hmem_shape y (hcl ▸ hy)
        rw [hyeq]
        exact normRow_idem _ _ hmknd hlatmk hlonmk

theorem C2_amended_witness :
    (cleanDataframe (cleanDataframe exDfC1) = cleanDataframe exDfC1) ∧
    (cleanRows (cleanRows [[("a", Val.nan), ("b", Val.float 2)],
        [("a", Val.float 1), ("b", Val.str "zz")]])
      = cleanRows [[("a", Val.nan), ("b", Val.float 2)],
        [("a", Val.float 1), ("b", Val.str "zz")]]) :=
  ⟨C2_amended.1 exDfC1 (by decide),
   C2_amended.2.1 [("a", Val.nan), ("b", Val.float 2)]
     [[("a", Val.float 1), ("b", Val.str "zz")]] (by decide) (by decide)⟩

theorem list_all_congr {α : Type} (l : List α) (p q : α → Bool)
    (h : ∀ x ∈ l, p x = q x) : l.all p = l.all q := by
  induction l with
  | nil => rfl
  | cons a l ih =>
    rw [List.all_cons, List.all_cons, h a (List.mem_cons_self _ _),
      ih (fun x hx => h x (List.mem_cons_of_mem _ hx))]

theorem allMeasuresNan_dset_not_mem (mk : List String) (r : Row) (k : String)
    (v : Val) (h : k ∉ mk) :
    allMeasuresNan mk (dset r k v) = allMeasuresNan mk r := by
  rw [allMeasuresNan, allMeasuresNan]
  apply list_all_congr
  intro c hc
  have hck : k ≠ c := fun hh => h (hh ▸ hc)
  rw [pyGet, pyGet, dget_dset_ne _ _ _ _ hck]

theorem tblAllNA_dset_not_mem (mk : List String) (r : Row) (k : String)
    (v : Val) (h : k ∉ mk) :
    (mk.all (fun c => pdIsNA (tblGet (dset r k v) c)))
      = mk.all (fun c => pdIsNA (tblGet r c)) := by
  apply list_all_congr
  intro c hc
  have hck : k ≠ c := fun hh => h (hh ▸ hc)
  rw [tblGet, tblGet, dget_dset_ne _ _ _ _ hck]

def exC3Rows : List Row := [[("t", Val.float 1), ("latitude", Val.nan)]]

/-- C3 counterexample (claim as stated is false): a row-representation
record with the NaN sentinel as `latitude` keeps NaN after cleaning — the
missing coordinate is NOT replaced by 0 (only a raised `float()` is). -/
theorem C3_counterexample :
    (cleanRows exC3Rows).length = 1 ∧
    dget ((cleanRows exC3Rows).getD 0 []) "latitude" = some Val.nan ∧
    Val.nan ≠ Val.float 0 := by decide

/-- C3 (amended): coordinates never influence row survival in either
representation; in the table representation latitude/longitude cells are
numeric-coerced with 0 replacing missing or unparseable values; in the row
representation the cells become `float(v)` with 0 only when the conversion
raises, so a NaN coordinate stays NaN there. -/
theorem C3_amended :
    (∀ (cols : List String) (r : Row) (v : Val) (k : String),
      k = "latitude" ∨ k = "longitude" →
      allMeasuresNan (measurementColumns cols) (dset r k v)
        = allMeasuresNan (measurementColumns cols) r) ∧
    (∀ (cols : List String) (r : Row) (v : Val) (k : String),
      k = "latitude" ∨ k = "longitude" →
      ((measurementColumns cols).all (fun c => pdIsNA (tblGet (dset r k v) c)))
        = (measurementColumns cols).all (fun c => pdIsNA (tblGet r c))) ∧
    (∀ (cols : List String) (r : Row) (v : Val),
      dget r "latitude" = some v →
      dget (normRow (measurementColumns cols) r) "latitude"
        = some (coerceCoord v)) ∧
    (∀ (cols : List String) (r : Row) (v : Val),
      dget r "longitude" = some v →
      dget (normRow (measurementColumns cols) r) "longitude"
        = some (coerceCoord v)) ∧
    (∀ v : Val, pyFloat v = Option.none → coerceCoord v = Val.float 0) ∧
    (coerceCoord Val.nan = Val.nan) ∧
    (∀ (cols : List String) (r : Row), "latitude" ∈ cols →
      dget (dfCleanRow cols r) "latitude"
        = some (fillZero (toNumericCoerce (tblGet r "latitude"))) ∧
      (pdIsNA (tblGet r "latitude") = true →
        fillZero (toNumericCoerce (tblGet r "latitude")) = Val.float 0)) ∧
    (∀ (cols : List String) (r : Row), "longitude" ∈ cols →
      dget (dfCleanRow cols r) "longitude"
        = some (fillZero (toNumericCoerce (tblGet r "longitude"))) ∧
      (pdIsNA (tblGet r "longitude") = true →
        fillZero (toNumericCoerce (tblGet r "longitude")) = Val.float 0)) := by
  refine ⟨?_, ?_, ?_, ?_, ?_, rfl, ?_, ?_⟩
  · intro cols r v k hk
    apply allMeasuresNan_dset_not_mem
    rcases hk with hk | hk <;> subst hk
    · exact lat_not_mem_mc cols
    · exact lon_not_mem_mc cols
  · intro cols r v k hk
    apply tblAllNA_dset_not_mem
    rcases hk with hk | hk <;> subst hk
    · exact lat_not_mem_mc cols
    · exact lon_not_mem_mc cols
  · intro cols r v hv
    rw [dget_normRow_lat _ _ (lat_not_mem_mc cols), hv]
    rfl
  · intro cols r v hv
    rw [dget_normRow_lon _ _ (lon_not_mem_mc cols) (lat_not_mem_mc cols), hv]
    rfl
  · intro v hv
    rw [coerceCoord, hv]
    rfl
  · intro cols r hin
    exact ⟨dget_dfCleanRow_lat cols r hin,
      fun h => fillZero_toNumeric_zero _ (Or.inl h)⟩
  · intro cols r hin
    exact ⟨dget_dfCleanRow_lon cols r hin,
      fun h => fillZero_toNumeric_zero _ (Or.inl h)⟩

theorem C3_amended_witness :
    (allMeasuresNan (measurementColumns ["t", "latitude"])
        (dset [("t", Val.float 1)] "latitude" (Val.str "oops"))
      = allMeasuresNan (measurementColumns ["t", "latitude"]) [("t", Val.float 1)]) ∧
    (dget (normRow (measurementColumns ["t", "latitude"])
        [("t", Val.float 1), ("latitude", Val.str "oops")]) "latitude"
      = some (coerceCoord (Val.str "oops"))) ∧
    (coerceCoord (Val.str "oops") = Val.float 0) ∧
    (dget (dfCleanRow ["t", "latitude"] [("t", Val.nan), ("latitude", Val.nan)]) "latitude"
      = some (fillZero (toNumericCoerce
          (tblGet ([("t", Val.nan), ("latitude", Val.nan)] : Row) "latitude")))) :=
  ⟨C3_amended.1 ["t", "latitude"] [("t", Val.float 1)] (Val.str "oops")
      "latitude" (Or.inl rfl),
   C3_amended.2.2.1 ["t", "latitude"]
      [("t", Val.float 1), ("latitude", Val.str "oops")] (Val.str "oops") (by decide),
   C3_amended.2.2.2.2.1 (Val.str "oops") (by decide),
   (C3_amended.2.2.2.2.2.2.1 ["t", "latitude"]
      [("t", Val.nan), ("latitude", Val.nan)] (by decide)).1⟩

def exC9Rows : List Row :=
  [[("a", Val.float 1), ("b", Val.float 2)], [("a", Val.float 3)]]

/-- C9 counterexample (claim as stated is false): cleaning a row sequence
can ADD keys to a surviving record — a record lacking a first-record
measurement key gains it (with value 0), so its key set differs from its
input record's. -/
theorem C9_counterexample :
    (cleanRows exC9Rows).length = 2 ∧
    dkeys ((cleanRows exC9Rows).getD 1 []) ≠ dkeys (exC9Rows.getD 1 []) := by decide

/-- C9 (amended): the materialized table's column order is
`[date, hour, latitude, longitude, variables…]` and table cleaning keeps
the column list identical; row cleaning is a stable filter followed by a
per-record map, and each surviving record keeps its own keys extended at
the end with the first-record measurement keys it lacked — exactly its own
keys whenever it already carries every first-record measurement key. -/
theorem C9_amended :
    (∀ (r : Response) (keys : List String),
      0 < r.hourly.Interval → r.hourly.Time ≤ r.hourly.TimeEnd →
      keys.length ≤ r.hourly.Variables.length → keys.Nodup →
      (∀ k ∈ keys, k ∉ leadingKeys) →
      ∃ tbl, to_dataframe r keys = Except.ok tbl ∧
        tbl.cols = ["date", "hour", "latitude", "longitude"] ++ keys) ∧
    (∀ df : Table, (cleanDataframe df).cols = df.cols) ∧
    (∀ (r0 : Row) (rest : List Row),
      cleanRows (r0 :: rest)
        = ((r0 :: rest).filter (fun r =>
            !allMeasuresNan (measurementColumns (dkeys r0)) r)).map
            (normRow (measurementColumns (dkeys r0)))) ∧
    (∀ (mk : List String) (r : Row), mk.Nodup →
      dkeys (normRow mk r)
        = dkeys r ++ mk.filter (fun c => decide (c ∉ dkeys r))) ∧
    (∀ (mk : List String) (r : Row), mk.Nodup →
      (∀ c ∈ mk, c ∈ dkeys r) →
      dkeys (normRow mk r) = dkeys r) := by
  refine ⟨?_, ?_, ?_, ?_, ?_⟩
  · intro r keys hI hse hk hnd hdisj
    exact ⟨_, to_dataframe_eq r keys hI hk hnd hdisj, rfl⟩
  · intro df
    by_cases h : (measurementColumns df.cols).isEmpty = true
    · rw [cleanDataframe, if_pos h]
    · rw [cleanDataframe_eq df (Bool.eq_false_iff.2 h)]
  · intro r0 rest
    exact cleanRows_eq r0 rest
  · intro mk r hnd
    exact dkeys_normRow mk r hnd
  · intro mk r hnd hsub
    exact dkeys_normRow_of_subset mk r hnd hsub

theorem C9_amended_witness :
    (∃ tbl, to_dataframe exResp ["temperature"] = Except.ok tbl ∧
      tbl.cols = ["date", "hour", "latitude", "longitude"] ++ ["temperature"]) ∧
    ((cleanDataframe exDfC1).cols = exDfC1.cols) ∧
    (dkeys (normRow ["a", "b"] [("a", Val.float 3)])
      = dkeys ([("a", Val.float 3)] : Row)
        ++ (["a", "b"] : List String).filter
            (fun c => decide (c ∉ dkeys ([("a", Val.float 3)] : Row)))) :=
  ⟨C9_amended.1 exResp ["temperature"] (by decide) (by decide) (by decide)
      (by decide) (by decide),
   C9_amended.2.1 exDfC1,
   C9_amended.2.2.2.1 ["a", "b"] [("a", Val.float 3)] (by decide)⟩

def exC10Rows : List Row :=
  [[("a", Val.float 1)], [("a", Val.float 2), ("latitude", Val.str "x")]]

/-- C10 counterexample (claim as stated is false): `latitude` appears only
in the second record, yet it is NOT copied through unchanged — the
coordinate normalization coerces it to 0. -/
theorem C10_counterexample :
    "latitude" ∉ dkeys (exC10Rows.getD 0 []) ∧
    dget (exC10Rows.getD 1 []) "latitude" = some (Val.str "x") ∧
    dget ((cleanRows exC10Rows).getD 1 []) "latitude" = some (Val.float 0) ∧
    Val.float 0 ≠ Val.str "x" := by decide

/-- C10 (amended): the measurement key set comes solely from the first
record's keys; a key absent from the first record is neither counted in
the all-missing test nor measurement-coerced, and its value is copied
through unchanged — unless it is `latitude`/`longitude`, which are
coordinate-normalized in every record that carries them. -/
theorem C10_amended (r0 : Row) (k : String)
    (hk : k ∉ dkeys r0) (hklat : k ≠ "latitude") (hklon : k ≠ "longitude") :
    k ∉ measurementColumns (dkeys r0) ∧
    (∀ (r : Row) (v : Val),
      allMeasuresNan (measurementColumns (dkeys r0)) (dset r k v)
        = allMeasuresNan (measurementColumns (dkeys r0)) r) ∧
    (∀ r : Row, dget (normRow (measurementColumns (dkeys r0)) r) k = dget r k) ∧
    (∀ (r : Row) (v : Val), dget r "latitude" = some v →
      dget (normRow (measurementColumns (dkeys r0)) r) "latitude"
        = some (coerceCoord v)) := by
  have hkmk : k ∉ measurementColumns (dkeys r0) :=
    fun h => hk (measurementColumns_subset _ h)
  refine ⟨hkmk, ?_, ?_, ?_⟩
  · intro r v
    exact allMeasuresNan_dset_not_mem _ _ _ _ hkmk
  · intro r
    exact dget_normRow_other _ _ _ hkmk hklat hklon
  · intro r v hv
    rw [dget_normRow_lat _ _ (lat_not_mem_mc (dkeys r0)), hv]
    rfl

theorem C10_amended_witness :
    ("b" ∉ measurementColumns (dkeys ([("a", Val.float 1)] : Row))) ∧
    (dget (normRow (measurementColumns (dkeys ([("a", Val.float 1)] : Row)))
        [("a", Val.float 2), ("b", Val.str "keepme")]) "b"
      = dget ([("a", Val.float 2), ("b", Val.str "keepme")] : Row) "b") ∧
    (dget (normRow (measurementColumns (dkeys ([("a", Val.float 1)] : Row)))
        [("a", Val.float 2), ("latitude", Val.str "x")]) "latitude"
      = some (coerceCoord (Val.str "x"))) :=
  ⟨(C10_amended [("a", Val.float 1)] "b" (by decide) (by decide) (by decide)).1,
   (C10_amended [("a", Val.float 1)] "b" (by decide) (by decide) (by decide)).2.2.1
     [("a", Val.float 2), ("b", Val.str "keepme")],
   (C10_amended [("a", Val.float 1)] "b" (by decide) (by decide) (by decide)).2.2.2
     [("a", Val.float 2), ("latitude", Val.str "x")] (Val.str "x") (by decide)⟩

/-! ### Concrete sanity facts -/

theorem fmtDate_epoch_zero : fmtDate 0 = "1970-01-01" := rfl

theorem fmtHour_epoch_zero : fmtHour 0 = "00:00" := rfl

theorem fmtDate_sample : fmtDate 1700000000 = "2023-11-14" := rfl

theorem fmtHour_sample : fmtHour 1700000000 = "22:13" := rfl

def exParsedRows : List Row :=
  [[("date", Val.int 0), ("hour", Val.null), ("latitude", Val.float 47),
    ("longitude", Val.float (28.8 : ℚ)), ("temperature", Val.float 10)],
   [("date", Val.int 1), ("hour", Val.null), ("latitude", Val.float 47),
    ("longitude", Val.float (28.8 : ℚ)), ("temperature", Val.nan)],
   [("date", Val.int 2), ("hour", Val.null), ("latitude", Val.float 47),
    ("longitude", Val.float (28.8 : ℚ)), ("temperature", Val.float 12)],
   [("date", Val.int 3), ("hour", Val.null), ("latitude", Val.float 47),
    ("longitude", Val.float (28.8 : ℚ)), ("temperature", Val.float 13)]]

/-- The end-to-end scenario on the code as written: 4 records materialize;
since `temperature` is the only measurement key, the all-NaN second record
is removed by the all-missing filter (3 records survive), and the
survivors keep their numeric temperatures. -/
theorem spec_end_to_end :
    to_rows exResp ["temperature"] = Except.ok exParsedRows ∧
    (cleanRows exParsedRows).length = 3 ∧
    dget ((cleanRows exParsedRows).getD 1 []) "temperature"
      = some (Val.float 12) :=
  ⟨rfl, by decide, by decide⟩
